import Mathlib

/-!
Verification development for the obj2brs voxel-merging core.

The greedy merger (`src/simplify.rs`) and the brick assembler
(`create_brick`), together with the mesh pre-scaling (`scale_models` in
`src/main.rs`), are embedded below.  The sparse voxel store
(`src/octree.rs`) and the color machinery (`src/color.rs`) are not part of
the available sources; they are modelled from the specification (spec §3,
§4.1, §4.3), with the color pipeline abstracted as function parameters.
-/

set_option linter.unusedVariables false
set_option linter.dupNamespace false

namespace Obj2Brs

/-- Integer grid coordinates (source: `cgmath::Vector3<isize>`). -/
structure V3 where
  x : Int
  y : Int
  z : Int
deriving DecidableEq, Repr

/-- An RGBA color sample (source: `cgmath::Vector4<u8>`). -/
structure RGBA where
  r : Nat
  g : Nat
  b : Nat
  a : Nat
deriving DecidableEq, Repr

/-- One cell of the voxel volume.  Modelled from the spec: `src/octree.rs`
(`TreeBody`) is not among the sources; spec §3 states that each cell of the
volume is exactly one of *Empty* or *Leaf(color)* (the internal `Branch`
structure of the octree is invisible at cell level). -/
inductive TreeBody where
  | Empty : TreeBody
  | Leaf : RGBA → TreeBody
deriving DecidableEq, Repr

/-- The sparse voxel volume.  Modelled from the spec: `src/octree.rs`
(`VoxelTree`) is not among the sources; spec §3 describes it as a cube of
side `2^size` storing one `TreeBody` per integer cell.  It is modelled
extensionally as the association list of its occupied cells (key = cell
coordinate, value = leaf color); the octree `Branch` structure is a sparsity
device with no observable effect on cell states. -/
structure VoxelTree where
  size : Nat
  cells : List (V3 × RGBA)
deriving DecidableEq, Repr

/-- First binding of a key in an association list of cells. -/
def lookupColor : List (V3 × RGBA) → V3 → Option RGBA
  | [], _ => none
  | p :: rest, c => if p.1 = c then some p.2 else lookupColor rest c

/-- Reading a cell.  Modelled from the spec (§4.1): `get_mut_or_create`
returns the cell at the given coordinate, materializing intermediate tree
structure on demand; materialization never changes any cell state, so a
read returns `Leaf` exactly on the occupied cells. -/
def getCell (t : VoxelTree) (c : V3) : TreeBody :=
  match lookupColor t.cells c with
  | some col => TreeBody.Leaf col
  | none => TreeBody.Empty

/-- Remove every binding of a key. -/
def eraseKey : List (V3 × RGBA) → V3 → List (V3 × RGBA)
  | [], _ => []
  | p :: rest, c => if p.1 = c then eraseKey rest c else p :: eraseKey rest c

/-- Writing `TreeBody::Empty` into a cell (the only write the merger
performs).  Modelled from the spec (§4.1): clearing a cell sets it to
*Empty*, a plain per-cell write. -/
def setEmpty (t : VoxelTree) (c : V3) : VoxelTree :=
  ⟨t.size, eraseKey t.cells c⟩

/-- `get_any_mut_or_create`.  Modelled from the spec (§4.1):
`find_any_occupied` returns some arbitrary occupied (*Leaf*) cell and its
coordinate, or signals "none left" when the volume contains no leaves; the
choice is deterministic.  Modelled as the first stored occupied cell. -/
def getAny (t : VoxelTree) : Option (V3 × RGBA) :=
  t.cells.head?

/-- The two growth loops of `src/simplify.rs` differ only in the per-cell
acceptance test (lossy: any leaf; lossless: leaf whose palette match equals
the seed's, lines 196-265) and in the presence of the `< len` edge bound
(lossless only, lines 196, 211, 236).  `GrowCfg` captures the two knobs so
one growth core serves both source functions. -/
structure GrowCfg where
  accept : RGBA → Bool
  lenBound : Option Int

/-- The `zp < len` style guard: present in `simplify_lossless`, absent in
`simplify_lossy`. -/
def GrowCfg.inBound (cfg : GrowCfg) (v : Int) : Bool :=
  match cfg.lenBound with
  | some len => decide (v < len)
  | none => true

/-- One slab row probe: `for sz in z..zp { ... get_mut_or_create(x, yp, sz) }`
(`simplify.rs` lines 69-78, 87-97 lossy; 213-229, 238-256 lossless), iterated
over `n` cells starting at `sz`.  Accumulates the sampled leaf colors
(pushed before the slab is accepted, exactly as in the source) and, as ghost
data, the probed coordinates. -/
def scanRow (t : VoxelTree) (cfg : GrowCfg) (xc yc : Int) :
    Int → Nat → List RGBA → List V3 → Bool × List RGBA × List V3
  | _, 0, cols, tr => (true, cols, tr)
  | sz, n+1, cols, tr =>
    match getCell t ⟨xc, yc, sz⟩ with
    | TreeBody.Leaf c =>
      if cfg.accept c then
        scanRow t cfg xc yc (sz + 1) n (cols ++ [c]) (tr ++ [⟨xc, yc, sz⟩])
      else (false, cols, tr ++ [⟨xc, yc, sz⟩])
    | TreeBody.Empty => (false, cols, tr ++ [⟨xc, yc, sz⟩])

/-- The doubly nested slab probe of the x growth loop:
`for sy in y..yp { for sz in z..zp { ... get_mut_or_create(xp, sy, sz) } }`
(`simplify.rs` lines 87-101, 238-260), iterated over `m` rows starting at
`sy`, each row spanning `n` cells from `z`. -/
def scanRect (t : VoxelTree) (cfg : GrowCfg) (xc z : Int) (n : Nat) :
    Int → Nat → List RGBA → List V3 → Bool × List RGBA × List V3
  | _, 0, cols, tr => (true, cols, tr)
  | sy, m+1, cols, tr =>
    match scanRow t cfg xc sy z n cols tr with
    | (true, cols2, tr2) => scanRect t cfg xc z n (sy + 1) m cols2 tr2
    | (false, cols2, tr2) => (false, cols2, tr2)

/-- The z growth loop (`simplify.rs` lines 56-65 lossy, 196-209 lossless):
`while (zp < len &&) zp - z < max_merge { probe (x,y,zp); ... zp += 1 }`.
The fuel is chosen by each caller so that it runs out only when the guard
is false, so the fueled recursion agrees with the source's `while`. -/
def growZ (t : VoxelTree) (cfg : GrowCfg) (x y z maxMerge : Int) :
    Int → Nat → List RGBA → List V3 → Int × List RGBA × List V3
  | zp, 0, cols, tr => (zp, cols, tr)
  | zp, fuel+1, cols, tr =>
    if cfg.inBound zp = true ∧ zp - z < maxMerge then
      match getCell t ⟨x, y, zp⟩ with
      | TreeBody.Leaf c =>
        if cfg.accept c then
          growZ t cfg x y z maxMerge (zp + 1) fuel (cols ++ [c]) (tr ++ [⟨x, y, zp⟩])
        else (zp, cols, tr ++ [⟨x, y, zp⟩])
      | TreeBody.Empty => (zp, cols, tr ++ [⟨x, y, zp⟩])
    else (zp, cols, tr)

/-- The y growth loop (`simplify.rs` lines 67-83 lossy, 211-234 lossless):
each candidate slab `yp` is validated by probing the whole accepted z run
(`n` cells from `z`); a rejected slab aborts growth, keeping the colors
already pushed while probing it. -/
def growY (t : VoxelTree) (cfg : GrowCfg) (x z : Int) (n : Nat) (y maxMerge : Int) :
    Int → Nat → List RGBA → List V3 → Int × List RGBA × List V3
  | yp, 0, cols, tr => (yp, cols, tr)
  | yp, fuel+1, cols, tr =>
    if cfg.inBound yp = true ∧ yp - y < maxMerge then
      match scanRow t cfg x yp z n cols tr with
      | (true, cols2, tr2) => growY t cfg x z n y maxMerge (yp + 1) fuel cols2 tr2
      | (false, cols2, tr2) => (yp, cols2, tr2)
    else (yp, cols, tr)

/-- The x growth loop (`simplify.rs` lines 85-106 lossy, 236-265 lossless):
each candidate slab `xp` is validated by probing the whole accepted y×z
cross-section (`m` rows of `n` cells). -/
def growX (t : VoxelTree) (cfg : GrowCfg) (y z : Int) (m n : Nat) (x maxMerge : Int) :
    Int → Nat → List RGBA → List V3 → Int × List RGBA × List V3
  | xp, 0, cols, tr => (xp, cols, tr)
  | xp, fuel+1, cols, tr =>
    if cfg.inBound xp = true ∧ xp - x < maxMerge then
      match scanRect t cfg xp z n y m cols tr with
      | (true, cols2, tr2) => growX t cfg y z m n x maxMerge (xp + 1) fuel cols2 tr2
      | (false, cols2, tr2) => (xp, cols2, tr2)
    else (xp, cols, tr)

/-- Innermost clear loop: `for sz in z..zp { *voxel = TreeBody::Empty }`
(`simplify.rs` lines 111-118, 270-277), `n` cells from `sz`. -/
def clearRow : VoxelTree → Int → Int → Int → Nat → VoxelTree
  | t, _, _, _, 0 => t
  | t, sx, sy, sz, n+1 => clearRow (setEmpty t ⟨sx, sy, sz⟩) sx sy (sz + 1) n

/-- Middle clear loop over `m` rows from `sy`. -/
def clearRect : VoxelTree → Int → Int → Int → Nat → Nat → VoxelTree
  | t, _, _, _, 0, _ => t
  | t, sx, sy, sz, m+1, n => clearRect (clearRow t sx sy sz n) sx (sy + 1) sz m n

/-- Outer clear loop over `k` planes from `sx`: clears the finalized box
`[x,xp) × [y,yp) × [z,zp)` cell by cell, exactly as the source's triple
loop. -/
def clearBox : VoxelTree → Int → Int → Int → Nat → Nat → Nat → VoxelTree
  | t, _, _, _, 0, _, _ => t
  | t, sx, sy, sz, k+1, m, n => clearBox (clearRect t sx sy sz m n) (sx + 1) sy sz k m n

/-- `brdb::Color` as built by `Color::new(r, g, b)`. -/
structure Color where
  r : Nat
  g : Nat
  b : Nat
deriving DecidableEq, Repr

/-- `BrickColor` (`simplify.rs` lines 9-13): palette index or explicit
color. -/
inductive BrickColor where
  | Index : Nat → BrickColor
  | Unique : Color → BrickColor
deriving DecidableEq, Repr

/-- One merged region of `simplify_lossy`: the finalized box bounds and the
colors collected for `hsv_average` (lines 31-130). -/
structure LossyRegion where
  x : Int
  y : Int
  z : Int
  xp : Int
  yp : Int
  zp : Int
  colors : List RGBA
deriving DecidableEq, Repr

/-- One merged region of `simplify_lossless`: the finalized box bounds, the
seed's matched palette index and the seed's gamma-corrected color
(lines 163-296). -/
structure LosslessRegion where
  x : Int
  y : Int
  z : Int
  xp : Int
  yp : Int
  zp : Int
  matched : Nat
  seedFinal : RGBA
deriving DecidableEq, Repr

/-- Membership of a cell in a region's box `[x,xp) × [y,yp) × [z,zp)`. -/
def LossyRegion.inBox (r : LossyRegion) (v : V3) : Prop :=
  r.x ≤ v.x ∧ v.x < r.xp ∧ r.y ≤ v.y ∧ v.y < r.yp ∧ r.z ≤ v.z ∧ v.z < r.zp

instance (r : LossyRegion) (v : V3) : Decidable (r.inBox v) := by
  unfold LossyRegion.inBox; infer_instance

/-- Membership of a cell in a lossless region's box. -/
def LosslessRegion.inBox (r : LosslessRegion) (v : V3) : Prop :=
  r.x ≤ v.x ∧ v.x < r.xp ∧ r.y ≤ v.y ∧ v.y < r.yp ∧ r.z ≤ v.z ∧ v.z < r.zp

instance (r : LosslessRegion) (v : V3) : Decidable (r.inBox v) := by
  unfold LosslessRegion.inBox; infer_instance

/-- Growth configuration of `simplify_lossy`: any occupied cell is accepted
(no per-cell color test, lines 56-106) and there is no `< len` bound. -/
def lossyCfg : GrowCfg :=
  ⟨fun _ => true, none⟩

/-- Growth configuration of `simplify_lossless` (lines 196-265): a candidate
cell is accepted when palette-matching its gamma-corrected color yields the
seed's matched index, and every loop is additionally bounded by `len`.
`matchFn` stands for `fun c => match_hsv_to_colorset(colorset, rgb2hsv(c))`
and `gammaFn` for `gamma_correct`, both from the missing `src/color.rs`,
abstracted per spec §4.3 as deterministic functions. -/
def losslessCfg (gammaFn : RGBA → RGBA) (matchFn : RGBA → Nat) (matched : Nat)
    (len : Int) : GrowCfg :=
  ⟨fun c => decide (matchFn (gammaFn c) = matched), some len⟩

/-- One iteration of the `simplify_lossy` outer loop (lines 31-140): pop a
seed, grow z then y then x, clear the finalized box; `none` when the volume
is exhausted (the `_ => break` arm at line 45).  `maxMerge` is the already
scale-divided budget of line 29. -/
def lossyPass (t : VoxelTree) (maxMerge : Int) : Option (LossyRegion × VoxelTree) :=
  match getAny t with
  | none => none
  | some seed =>
    let x := seed.1.x
    let y := seed.1.y
    let z := seed.1.z
    let g1 := growZ t lossyCfg x y z maxMerge (z + 1) (maxMerge - 1).toNat [seed.2] []
    let zp := g1.1
    let g2 := growY t lossyCfg x z (zp - z).toNat y maxMerge (y + 1) (maxMerge - 1).toNat g1.2.1 g1.2.2
    let yp := g2.1
    let g3 := growX t lossyCfg y z (yp - y).toNat (zp - z).toNat x maxMerge (x + 1) (maxMerge - 1).toNat g2.2.1 g2.2.2
    let xp := g3.1
    let t2 := clearBox t x y z (xp - x).toNat (yp - y).toNat (zp - z).toNat
    some (⟨x, y, z, xp, yp, zp, g3.2.1⟩, t2)

/-- One iteration of the `simplify_lossless` outer loop (lines 163-297).
The fuels are chosen from the `len` bound so they run out exactly when the
`< len` guard fails. -/
def losslessPass (gammaFn : RGBA → RGBA) (matchFn : RGBA → Nat)
    (t : VoxelTree) (len maxMerge : Int) :
    Option (LosslessRegion × List V3 × VoxelTree) :=
  match getAny t with
  | none => none
  | some seed =>
    let x := seed.1.x
    let y := seed.1.y
    let z := seed.1.z
    let seedFinal := gammaFn seed.2
    let matched := matchFn seedFinal
    let cfg := losslessCfg gammaFn matchFn matched len
    let g1 := growZ t cfg x y z maxMerge (z + 1) (len - (z + 1)).toNat [] []
    let zp := g1.1
    let g2 := growY t cfg x z (zp - z).toNat y maxMerge (y + 1) (len - (y + 1)).toNat g1.2.1 g1.2.2
    let yp := g2.1
    let g3 := growX t cfg y z (yp - y).toNat (zp - z).toNat x maxMerge (x + 1) (len - (x + 1)).toNat g2.2.1 g2.2.2
    let xp := g3.1
    let t2 := clearBox t x y z (xp - x).toNat (yp - y).toNat (zp - z).toNat
    some (⟨x, y, z, xp, yp, zp, matched, seedFinal⟩, g3.2.2, t2)

lemma V3.eq_mk_iff (v : V3) (a b c : Int) :
    v = ⟨a, b, c⟩ ↔ v.x = a ∧ v.y = b ∧ v.z = c := by
  cases v
  simp [V3.mk.injEq]

lemma mem_eraseKey {p : V3 × RGBA} {c : V3} :
    ∀ {l : List (V3 × RGBA)}, p ∈ eraseKey l c ↔ p ∈ l ∧ p.1 ≠ c := by
  intro l
  induction l with
  | nil => simp [eraseKey]
  | cons q rest ih =>
    by_cases h : q.1 = c
    · rw [eraseKey, if_pos h, ih]
      constructor
      · rintro ⟨hp, hne⟩
        exact ⟨List.mem_cons_of_mem _ hp, hne⟩
      · rintro ⟨hp, hne⟩
        rcases List.mem_cons.mp hp with rfl | hp2
        · exact absurd h hne
        · exact ⟨hp2, hne⟩
    · rw [eraseKey, if_neg h]
      simp only [List.mem_cons]
      constructor
      · rintro (rfl | hp)
        · exact ⟨Or.inl rfl, h⟩
        · exact ⟨Or.inr (ih.mp hp).1, (ih.mp hp).2⟩
      · rintro ⟨rfl | hp, hne⟩
        · exact Or.inl rfl
        · exact Or.inr (ih.mpr ⟨hp, hne⟩)

lemma eraseKey_sublist (c : V3) : ∀ (l : List (V3 × RGBA)), List.Sublist (eraseKey l c) l := by
  intro l
  induction l with
  | nil => simp [eraseKey]
  | cons q rest ih =>
    by_cases h : q.1 = c
    · rw [eraseKey, if_pos h]
      exact ih.cons q
    · rw [eraseKey, if_neg h]
      exact ih.cons₂ q

lemma setEmpty_size (t : VoxelTree) (c : V3) : (setEmpty t c).size = t.size := rfl

lemma mem_setEmpty {p : V3 × RGBA} {t : VoxelTree} {c : V3} :
    p ∈ (setEmpty t c).cells ↔ p ∈ t.cells ∧ p.1 ≠ c :=
  mem_eraseKey

lemma clearRow_size : ∀ (t : VoxelTree) (sx sy sz : Int) (n : Nat),
    (clearRow t sx sy sz n).size = t.size := by
  intro t sx sy sz n
  induction n generalizing t sz with
  | zero => rfl
  | succ n ih => rw [clearRow, ih, setEmpty_size]

lemma mem_clearRow {p : V3 × RGBA} : ∀ (n : Nat) (t : VoxelTree) (sx sy sz : Int),
    (p ∈ (clearRow t sx sy sz n).cells ↔
      p ∈ t.cells ∧ ¬(p.1.x = sx ∧ p.1.y = sy ∧ sz ≤ p.1.z ∧ p.1.z < sz + (n : Int))) := by
  intro n
  induction n with
  | zero =>
    intro t sx sy sz
    rw [clearRow]
    constructor
    · intro h
      exact ⟨h, by omega⟩
    · exact fun h => h.1
  | succ n ih =>
    intro t sx sy sz
    rw [clearRow, ih, mem_setEmpty]
    have hne : (p.1 ≠ (⟨sx, sy, sz⟩ : V3)) ↔ ¬(p.1.x = sx ∧ p.1.y = sy ∧ p.1.z = sz) :=
      not_congr (V3.eq_mk_iff p.1 sx sy sz)
    rw [and_assoc, hne]
    constructor
    · rintro ⟨hp, hne2, hn⟩
      exact ⟨hp, by omega⟩
    · rintro ⟨hp, hn⟩
      exact ⟨hp, by omega, by omega⟩

lemma clearRow_sublist : ∀ (n : Nat) (t : VoxelTree) (sx sy sz : Int),
    List.Sublist (clearRow t sx sy sz n).cells t.cells := by
  intro n
  induction n with
  | zero => intro t sx sy sz; rw [clearRow]
  | succ n ih =>
    intro t sx sy sz
    rw [clearRow]
    exact (ih _ sx sy (sz + 1)).trans (eraseKey_sublist _ _)

lemma clearRect_size : ∀ (m : Nat) (t : VoxelTree) (sx sy sz : Int) (n : Nat),
    (clearRect t sx sy sz m n).size = t.size := by
  intro m
  induction m with
  | zero => intro t sx sy sz n; rfl
  | succ m ih =>
    intro t sx sy sz n
    rw [clearRect, ih, clearRow_size]

lemma mem_clearRect {p : V3 × RGBA} : ∀ (m : Nat) (t : VoxelTree) (sx sy sz : Int) (n : Nat),
    (p ∈ (clearRect t sx sy sz m n).cells ↔
      p ∈ t.cells ∧ ¬(p.1.x = sx ∧ sy ≤ p.1.y ∧ p.1.y < sy + (m : Int) ∧
        sz ≤ p.1.z ∧ p.1.z < sz + (n : Int))) := by
  intro m
  induction m with
  | zero =>
    intro t sx sy sz n
    rw [clearRect]
    constructor
    · intro h
      exact ⟨h, by omega⟩
    · exact fun h => h.1
  | succ m ih =>
    intro t sx sy sz n
    rw [clearRect, ih, mem_clearRow]
    constructor
    · rintro ⟨⟨hp, hn1⟩, hn2⟩
      exact ⟨hp, by omega⟩
    · rintro ⟨hp, hn⟩
      exact ⟨⟨hp, by omega⟩, by omega⟩

lemma clearRect_sublist : ∀ (m : Nat) (t : VoxelTree) (sx sy sz : Int) (n : Nat),
    List.Sublist (clearRect t sx sy sz m n).cells t.cells := by
  intro m
  induction m with
  | zero => intro t sx sy sz n; rw [clearRect]
  | succ m ih =>
    intro t sx sy sz n
    rw [clearRect]
    exact (ih _ sx (sy + 1) sz n).trans (clearRow_sublist n t sx sy sz)

lemma clearBox_size : ∀ (k : Nat) (t : VoxelTree) (sx sy sz : Int) (m n : Nat),
    (clearBox t sx sy sz k m n).size = t.size := by
  intro k
  induction k with
  | zero => intro t sx sy sz m n; rfl
  | succ k ih =>
    intro t sx sy sz m n
    rw [clearBox, ih, clearRect_size]

lemma mem_clearBox {p : V3 × RGBA} : ∀ (k : Nat) (t : VoxelTree) (sx sy sz : Int) (m n : Nat),
    (p ∈ (clearBox t sx sy sz k m n).cells ↔
      p ∈ t.cells ∧ ¬(sx ≤ p.1.x ∧ p.1.x < sx + (k : Int) ∧ sy ≤ p.1.y ∧
        p.1.y < sy + (m : Int) ∧ sz ≤ p.1.z ∧ p.1.z < sz + (n : Int))) := by
  intro k
  induction k with
  | zero =>
    intro t sx sy sz m n
    rw [clearBox]
    constructor
    · intro h
      exact ⟨h, by omega⟩
    · exact fun h => h.1
  | succ k ih =>
    intro t sx sy sz m n
    rw [clearBox, ih, mem_clearRect]
    constructor
    · rintro ⟨⟨hp, hn1⟩, hn2⟩
      exact ⟨hp, by omega⟩
    · rintro ⟨hp, hn⟩
      exact ⟨⟨hp, by omega⟩, by omega⟩

lemma clearBox_sublist : ∀ (k : Nat) (t : VoxelTree) (sx sy sz : Int) (m n : Nat),
    List.Sublist (clearBox t sx sy sz k m n).cells t.cells := by
  intro k
  induction k with
  | zero => intro t sx sy sz m n; rw [clearBox]
  | succ k ih =>
    intro t sx sy sz m n
    rw [clearBox]
    exact (ih _ (sx + 1) sy sz m n).trans (clearRect_sublist m t sx sy sz n)

lemma growZ_start_le (t : VoxelTree) (cfg : GrowCfg) (x y z mm : Int) :
    ∀ (fuel : Nat) (zp : Int) (cols : List RGBA) (tr : List V3),
    zp ≤ (growZ t cfg x y z mm zp fuel cols tr).1 := by
  intro fuel
  induction fuel with
  | zero => intro zp cols tr; exact le_refl _
  | succ n ih =>
    intro zp cols tr
    rw [growZ]
    split
    · cases hgc : getCell t ⟨x, y, zp⟩ with
      | Leaf c =>
        by_cases ha : cfg.accept c = true
        · simp only [hgc, ha, if_true]
          exact le_trans (by omega) (ih (zp + 1) _ _)
        · rw [Bool.not_eq_true] at ha
          simp only [hgc, ha]
          simp
      | Empty =>
        simp only [hgc]
        exact le_refl _
    · exact le_refl _

lemma growY_start_le (t : VoxelTree) (cfg : GrowCfg) (x z : Int) (n : Nat) (y mm : Int) :
    ∀ (fuel : Nat) (yp : Int) (cols : List RGBA) (tr : List V3),
    yp ≤ (growY t cfg x z n y mm yp fuel cols tr).1 := by
  intro fuel
  induction fuel with
  | zero => intro yp cols tr; exact le_refl _
  | succ k ih =>
    intro yp cols tr
    rw [growY]
    split
    · cases hs : scanRow t cfg x yp z n cols tr with
      | mk pass rest =>
        cases pass with
        | true => simp only [hs]; exact le_trans (by omega) (ih (yp + 1) _ _)
        | false => simp only [hs]; exact le_refl _
    · exact le_refl _

lemma growX_start_le (t : VoxelTree) (cfg : GrowCfg) (y z : Int) (m n : Nat) (x mm : Int) :
    ∀ (fuel : Nat) (xp : Int) (cols : List RGBA) (tr : List V3),
    xp ≤ (growX t cfg y z m n x mm xp fuel cols tr).1 := by
  intro fuel
  induction fuel with
  | zero => intro xp cols tr; exact le_refl _
  | succ k ih =>
    intro xp cols tr
    rw [growX]
    split
    · cases hs : scanRect t cfg xp z n y m cols tr with
      | mk pass rest =>
        cases pass with
        | true => simp only [hs]; exact le_trans (by omega) (ih (xp + 1) _ _)
        | false => simp only [hs]; exact le_refl _
    · exact le_refl _

lemma clearBox_length_lt {t : VoxelTree} {q : V3 × RGBA} (hq : q ∈ t.cells)
    (x y z : Int) (kx ky kz : Nat)
    (hin : x ≤ q.1.x ∧ q.1.x < x + (kx : Int) ∧ y ≤ q.1.y ∧ q.1.y < y + (ky : Int) ∧
      z ≤ q.1.z ∧ q.1.z < z + (kz : Int)) :
    (clearBox t x y z kx ky kz).cells.length < t.cells.length := by
  have hsub := clearBox_sublist kx t x y z ky kz
  rcases lt_or_eq_of_le hsub.length_le with h | h
  · exact h
  · exfalso
    have heq := hsub.eq_of_length h
    have hq2 : q ∈ (clearBox t x y z kx ky kz).cells := heq ▸ hq
    rw [mem_clearBox] at hq2
    exact hq2.2 hin

lemma pass_shape_shrink (t : VoxelTree) (q : V3 × RGBA) (hq : q ∈ t.cells)
    (xp yp zp : Int) (hx : q.1.x + 1 ≤ xp) (hy : q.1.y + 1 ≤ yp) (hz : q.1.z + 1 ≤ zp) :
    (clearBox t q.1.x q.1.y q.1.z (xp - q.1.x).toNat (yp - q.1.y).toNat
      (zp - q.1.z).toNat).cells.length < t.cells.length :=
  clearBox_length_lt hq _ _ _ _ _ _
    ⟨by omega, by omega, by omega, by omega, by omega, by omega⟩

lemma lossyPass_shrink {t : VoxelTree} {mm : Int} {r : LossyRegion} {t2 : VoxelTree}
    (h : lossyPass t mm = some (r, t2)) : t2.cells.length < t.cells.length := by
  cases hc : t.cells with
  | nil =>
    rw [lossyPass] at h
    rw [getAny, hc] at h
    simp at h
  | cons q rest =>
    have hg : getAny t = some q := by rw [getAny, hc]; rfl
    rw [lossyPass, hg] at h
    simp only [Option.some.injEq, Prod.mk.injEq] at h
    obtain ⟨hr, ht2⟩ := h
    have hq : q ∈ t.cells := by rw [hc]; exact List.mem_cons_self q rest
    rw [← ht2, ← hc]
    apply pass_shape_shrink t q hq
    · apply growX_start_le
    · apply growY_start_le
    · apply growZ_start_le

lemma losslessPass_shrink {gammaFn : RGBA → RGBA} {matchFn : RGBA → Nat}
    {t : VoxelTree} {len mm : Int} {r : LosslessRegion} {pr : List V3} {t2 : VoxelTree}
    (h : losslessPass gammaFn matchFn t len mm = some (r, pr, t2)) :
    t2.cells.length < t.cells.length := by
  cases hc : t.cells with
  | nil =>
    rw [losslessPass] at h
    rw [getAny, hc] at h
    simp at h
  | cons q rest =>
    have hg : getAny t = some q := by rw [getAny, hc]; rfl
    rw [losslessPass, hg] at h
    simp only [Option.some.injEq, Prod.mk.injEq] at h
    obtain ⟨hr, hpr, ht2⟩ := h
    have hq : q ∈ t.cells := by rw [hc]; exact List.mem_cons_self q rest
    rw [← ht2, ← hc]
    apply pass_shape_shrink t q hq
    · apply growX_start_le
    · apply growY_start_le
    · apply growZ_start_le

/-- The outer `loop { ... }` of `simplify_lossy` (lines 31-141): iterate
passes until the volume is exhausted, collecting one region per pass in
discovery order, together with the final (fully cleared) volume. -/
def lossyRun (maxMerge : Int) (t : VoxelTree) : List LossyRegion × VoxelTree :=
  match h : lossyPass t maxMerge with
  | none => ([], t)
  | some rt =>
    let rest := lossyRun maxMerge rt.2
    (rt.1 :: rest.1, rest.2)
termination_by t.cells.length
decreasing_by exact lossyPass_shrink h

/-- The outer `loop { ... }` of `simplify_lossless` (lines 163-297), also
returning the accumulated trace of probed coordinates. -/
def losslessRun (gammaFn : RGBA → RGBA) (matchFn : RGBA → Nat)
    (len maxMerge : Int) (t : VoxelTree) :
    List LosslessRegion × List V3 × VoxelTree :=
  match h : losslessPass gammaFn matchFn t len maxMerge with
  | none => ([], [], t)
  | some rt =>
    let rest := losslessRun gammaFn matchFn len maxMerge rt.2.2
    (rt.1 :: rest.1, rt.2.1 ++ rest.2.1, rest.2.2)
termination_by t.cells.length
decreasing_by exact losslessPass_shrink h

/-- `BrickType` (`main.rs` lines 71-75). -/
inductive BrickType where
  | Microbricks
  | Default
  | Tiles
deriving DecidableEq, Repr

/-- `Material` (`main.rs` lines 78-85). -/
inductive Material where
  | Plastic
  | Glass
  | Glow
  | Metallic
  | Hologram
  | Ghost
deriving DecidableEq, Repr

/-- The conversion options consumed by the merger and the assembler
(`main.rs` lines 44-68, restricted to the fields `simplify.rs` reads). -/
structure Obj2Brs where
  bricktype : BrickType
  brick_scale : Int
  match_brickadia_colorset : Bool
  material : Material
  material_intensity : Nat
deriving DecidableEq, Repr

/-- Per-axis voxel-to-stud scale (`simplify.rs` lines 22-26 and 154-158). -/
def scalesOf (opts : Obj2Brs) : Int × Int × Int :=
  if opts.bricktype = BrickType.Microbricks then
    (opts.brick_scale, opts.brick_scale, opts.brick_scale)
  else (5, 5, 2)

/-- `isize::max(isize::max(scales.0, scales.1), scales.2)`
(`simplify.rs` lines 28, 160). -/
def maxScaleOf (opts : Obj2Brs) : Int :=
  max (max (scalesOf opts).1 (scalesOf opts).2.1) (scalesOf opts).2.2

/-- `brdb::Rotation`; the pipeline always emits `Deg0`. -/
inductive Rotation where
  | Deg0
  | Deg90
  | Deg180
  | Deg270
deriving DecidableEq, Repr

/-- `brdb::Direction`; the pipeline always emits `ZPositive`. -/
inductive Direction where
  | XPositive
  | XNegative
  | YPositive
  | YNegative
  | ZPositive
  | ZNegative
deriving DecidableEq, Repr

/-- Brick size in studs (`brdb::BrickSize`, three `u16` components). -/
structure BrickSizeT where
  x : Nat
  y : Nat
  z : Nat
deriving DecidableEq, Repr

/-- Brick position (`brdb::Position`, three `i32` components). -/
structure PositionT where
  x : Int
  y : Int
  z : Int
deriving DecidableEq, Repr

/-- Rust `as u16` on an `isize`: keep the low 16 bits. -/
def toU16 (v : Int) : Nat :=
  (v % 65536).toNat

/-- Rust `as i32` on an `isize`: keep the low 32 bits, two's complement. -/
def toI32 (v : Int) : Int :=
  (v + 2147483648) % 4294967296 - 2147483648

/-- The output brick record (`brdb::Brick`, the fields `create_brick`
sets; `id`/`owner_index` are constantly `None` and `collision` is the
default, so they are omitted). -/
structure Brick where
  asset : String
  size : BrickSizeT
  position : PositionT
  rotation : Rotation
  direction : Direction
  visible : Bool
  color : Color
  material : String
  material_intensity : Nat
deriving DecidableEq, Repr

/-- `create_brick` (`simplify.rs` lines 300-362). -/
def createBrick (opts : Obj2Brs) (palette : List Color)
    (scale size pos : Int × Int × Int) (color : BrickColor) : Brick :=
  { asset :=
      if opts.bricktype = BrickType.Microbricks then "PB_DefaultMicroBrick"
      else if opts.bricktype = BrickType.Tiles then "PB_DefaultTile"
      else "PB_DefaultBrick"
    size := ⟨toU16 (scale.1 * size.1), toU16 (scale.2.1 * size.2.1),
      toU16 (scale.2.2 * size.2.2)⟩
    position := ⟨toI32 (scale.1 * size.1 + 2 * scale.1 * pos.1),
      toI32 (scale.2.1 * size.2.1 + 2 * scale.2.1 * pos.2.1),
      toI32 (scale.2.2 * size.2.2 + 2 * scale.2.2 * pos.2.2)⟩
    rotation := Rotation.Deg0
    direction := Direction.ZPositive
    visible := true
    color :=
      match color with
      | BrickColor.Unique c => c
      | BrickColor.Index idx =>
        if h : idx < palette.length then palette.get ⟨idx, h⟩
        else ⟨255, 255, 255⟩
    material :=
      match opts.material with
      | Material.Plastic => "BMC_Plastic"
      | Material.Glass => "BMC_Glass"
      | Material.Glow => "BMC_Glow"
      | Material.Metallic => "BMC_Metallic"
      | Material.Hologram => "BMC_Hologram"
      | Material.Ghost => "BMC_Ghost"
    material_intensity := opts.material_intensity }

/-- The region color of `simplify_lossy` (lines 120-126).  `avgMatch`
stands for `colors => match_hsv_to_colorset(colorset, hsv_average(colors))`
and `avgRaw` for `colors => gamma_correct(hsv2rgb(hsv_average(colors)))`,
compositions over the missing `src/color.rs`, abstracted per spec §4.3. -/
def lossyRegionColor (avgMatch : List RGBA → Nat) (avgRaw : List RGBA → RGBA)
    (opts : Obj2Brs) (cols : List RGBA) : BrickColor :=
  if opts.match_brickadia_colorset then BrickColor.Index (avgMatch cols)
  else BrickColor.Unique ⟨(avgRaw cols).r, (avgRaw cols).g, (avgRaw cols).b⟩

/-- The region color of `simplify_lossless` (lines 176-188, 283-287). -/
def losslessRegionColor (opts : Obj2Brs) (r : LosslessRegion) : BrickColor :=
  if opts.match_brickadia_colorset then BrickColor.Index r.matched
  else BrickColor.Unique ⟨r.seedFinal.r, r.seedFinal.g, r.seedFinal.b⟩

/-- `simplify_lossy` (`simplify.rs` lines 15-141): divide the merge budget
by the largest per-axis scale, run the merge loop, and push one brick per
region via `create_brick` with size `(width, depth, height)` and position
`(x, z, y)` (lines 132-139). -/
def simplifyLossy (avgMatch : List RGBA → Nat) (avgRaw : List RGBA → RGBA)
    (t : VoxelTree) (palette : List Color) (opts : Obj2Brs) (max_merge : Int) :
    List Brick × VoxelTree :=
  let out := lossyRun (Int.tdiv max_merge (maxScaleOf opts)) t
  (out.1.map (fun r =>
    createBrick opts palette (scalesOf opts) (r.xp - r.x, r.zp - r.z, r.yp - r.y)
      (r.x, r.z, r.y) (lossyRegionColor avgMatch avgRaw opts r.colors)), out.2)

/-- `simplify_lossless` (`simplify.rs` lines 143-298): `len = (1 << size) + 1`
(lines 149-150), budget divided by the largest scale, then the merge loop;
one brick per region (lines 289-296). -/
def simplifyLossless (gammaFn : RGBA → RGBA) (matchFn : RGBA → Nat)
    (t : VoxelTree) (palette : List Color) (opts : Obj2Brs) (max_merge : Int) :
    List Brick × List V3 × VoxelTree :=
  let len : Int := 2 ^ t.size + 1
  let out := losslessRun gammaFn matchFn len (Int.tdiv max_merge (maxScaleOf opts)) t
  (out.1.map (fun r =>
    createBrick opts palette (scalesOf opts) (r.xp - r.x, r.zp - r.z, r.yp - r.y)
      (r.x, r.z, r.y) (losslessRegionColor opts r)), out.2.1, out.2.2)

/-- A mesh vertex position, `(p[v], p[v+1], p[v+2])` of the flattened
`tobj` position buffer.  The source stores `f32`; exact rational arithmetic
stands in for it (which components are scaled or translated does not depend
on rounding). -/
abbrev Vtx := ℚ × ℚ × ℚ

/-- Inner fold of the `min_z` scan of `scale_models`
(`main.rs` lines 778-783): fold `min` over the third components of one
model's vertices. -/
def minZRow (a : ℚ) (m : List Vtx) : ℚ :=
  m.foldl (fun acc v => min acc v.2.2) a

/-- Outer fold of the `min_z` scan over all models. -/
def minZAll (a : ℚ) (ms : List (List Vtx)) : ℚ :=
  ms.foldl minZRow a

/-- `scale_models` (`main.rs` lines 759-796): scale every vertex
(`x*scale`, `y*yscale*scale`, `z*scale` with `yscale = 2.5` except for
micro-bricks), then — only when the first model exists and is non-empty, a
condition unchanged by the shape-preserving scaling map — compute the
minimum third component over all scaled models (seeded from the first
model's first scaled vertex, `positions[2]`) and, if negative, raise every
vertex's third component by its negation. -/
def scaleModels (models : List (List Vtx)) (scale : ℚ) (bricktype : BrickType) :
    List (List Vtx) :=
  let yscale : ℚ := if bricktype = BrickType.Microbricks then 1 else 5 / 2
  let f : Vtx → Vtx := fun v => (v.1 * scale, v.2.1 * (yscale * scale), v.2.2 * scale)
  match models with
  | [] => []
  | m0 :: _ =>
    match m0 with
    | [] => models.map (List.map f)
    | v0 :: _ =>
      let scaled := models.map (List.map f)
      let minZ := minZAll (f v0).2.2 scaled
      if minZ < 0 then
        scaled.map (List.map (fun v => (v.1, v.2.1, v.2.2 + -minZ)))
      else scaled

lemma scanRow_cols_sub (t : VoxelTree) (cfg : GrowCfg) (xc yc : Int) :
    ∀ (n : Nat) (sz : Int) (cols : List RGBA) (tr : List V3),
    cols ⊆ (scanRow t cfg xc yc sz n cols tr).2.1 := by
  intro n
  induction n with
  | zero => intro sz cols tr; rw [scanRow]; exact fun a hm => hm
  | succ n ih =>
    intro sz cols tr
    rw [scanRow]
    split
    · rename_i c heq
      split
      · intro a hma
        exact ih (sz + 1) (cols ++ [c]) _ (List.mem_append_left _ hma)
      · exact fun a hm => hm
    · exact fun a hm => hm

lemma scanRow_true_leaf (t : VoxelTree) (cfg : GrowCfg) (xc yc : Int) :
    ∀ (n : Nat) (sz : Int) (cols : List RGBA) (tr : List V3) (cols2 : List RGBA) (tr2 : List V3),
    scanRow t cfg xc yc sz n cols tr = (true, cols2, tr2) →
    ∀ i : Nat, i < n →
      ∃ c, getCell t ⟨xc, yc, sz + (i : Int)⟩ = TreeBody.Leaf c ∧
        cfg.accept c = true ∧ c ∈ cols2 := by
  intro n
  induction n with
  | zero => intro sz cols tr cols2 tr2 h i hi; omega
  | succ n ih =>
    intro sz cols tr cols2 tr2 h i hi
    rw [scanRow] at h
    split at h
    · rename_i c heq
      split at h
      · rename_i ha
        cases i with
        | zero =>
          refine ⟨c, ?_, ha, ?_⟩
          · simpa using heq
          · have hsub := scanRow_cols_sub t cfg xc yc n (sz + 1) (cols ++ [c]) (tr ++ [⟨xc, yc, sz⟩])
            have hmem : c ∈ (scanRow t cfg xc yc (sz + 1) n (cols ++ [c]) (tr ++ [⟨xc, yc, sz⟩])).2.1 :=
              hsub (List.mem_append_right _ (by simp))
            rw [h] at hmem
            exact hmem
        | succ i =>
          obtain ⟨c2, hc2, ha2, hm2⟩ := ih (sz + 1) (cols ++ [c]) _ cols2 tr2 h i (by omega)
          refine ⟨c2, ?_, ha2, hm2⟩
          have harith : sz + 1 + (i : Int) = sz + ((i + 1 : Nat) : Int) := by push_cast; ring
          rw [harith] at hc2
          exact hc2
      · simp at h
    · simp at h

lemma scanRow_probes (t : VoxelTree) (cfg : GrowCfg) (xc yc : Int) :
    ∀ (n : Nat) (sz : Int) (cols : List RGBA) (tr : List V3) (p : V3),
    p ∈ (scanRow t cfg xc yc sz n cols tr).2.2 →
    p ∈ tr ∨ (p.x = xc ∧ p.y = yc ∧ sz ≤ p.z ∧ p.z < sz + (n : Int)) := by
  intro n
  induction n with
  | zero =>
    intro sz cols tr p hp
    rw [scanRow] at hp
    exact Or.inl hp
  | succ n ih =>
    intro sz cols tr p hp
    rw [scanRow] at hp
    split at hp
    · rename_i c heq
      split at hp
      · rcases ih (sz + 1) (cols ++ [c]) (tr ++ [⟨xc, yc, sz⟩]) p hp with hin | hrange
        · rcases List.mem_append.mp hin with hin2 | hin2
          · exact Or.inl hin2
          · have hpv : p = (⟨xc, yc, sz⟩ : V3) := by simpa using hin2
            subst hpv
            refine Or.inr ⟨rfl, rfl, le_refl _, ?_⟩
            show sz < sz + ((n + 1 : Nat) : Int)
            omega
        · exact Or.inr ⟨hrange.1, hrange.2.1, by omega, by omega⟩
      · rcases List.mem_append.mp hp with hin2 | hin2
        · exact Or.inl hin2
        · have hpv : p = (⟨xc, yc, sz⟩ : V3) := by simpa using hin2
          subst hpv
          refine Or.inr ⟨rfl, rfl, le_refl _, ?_⟩
          show sz < sz + ((n + 1 : Nat) : Int)
          omega
    · rcases List.mem_append.mp hp with hin2 | hin2
      · exact Or.inl hin2
      · have hpv : p = (⟨xc, yc, sz⟩ : V3) := by simpa using hin2
        subst hpv
        refine Or.inr ⟨rfl, rfl, le_refl _, ?_⟩
        show sz < sz + ((n + 1 : Nat) : Int)
        omega

lemma scanRect_cols_sub (t : VoxelTree) (cfg : GrowCfg) (xc z : Int) (n : Nat) :
    ∀ (m : Nat) (sy : Int) (cols : List RGBA) (tr : List V3),
    cols ⊆ (scanRect t cfg xc z n sy m cols tr).2.1 := by
  intro m
  induction m with
  | zero => intro sy cols tr; rw [scanRect]; exact fun a hm => hm
  | succ m ih =>
    intro sy cols tr
    rw [scanRect]
    split
    · rename_i cols3 tr3 heq
      intro a hma
      have h1 : a ∈ (scanRow t cfg xc sy z n cols tr).2.1 := scanRow_cols_sub t cfg xc sy n z cols tr hma
      rw [heq] at h1
      exact ih (sy + 1) cols3 tr3 h1
    · rename_i cols3 tr3 heq
      intro a hma
      have h1 : a ∈ (scanRow t cfg xc sy z n cols tr).2.1 := scanRow_cols_sub t cfg xc sy n z cols tr hma
      rw [heq] at h1
      exact h1

lemma scanRect_true_leaf (t : VoxelTree) (cfg : GrowCfg) (xc z : Int) (n : Nat) :
    ∀ (m : Nat) (sy : Int) (cols : List RGBA) (tr : List V3) (cols2 : List RGBA) (tr2 : List V3),
    scanRect t cfg xc z n sy m cols tr = (true, cols2, tr2) →
    ∀ j : Nat, j < m → ∀ i : Nat, i < n →
      ∃ c, getCell t ⟨xc, sy + (j : Int), z + (i : Int)⟩ = TreeBody.Leaf c ∧
        cfg.accept c = true ∧ c ∈ cols2 := by
  intro m
  induction m with
  | zero => intro sy cols tr cols2 tr2 h j hj; omega
  | succ m ih =>
    intro sy cols tr cols2 tr2 h j hj i hi
    rw [scanRect] at h
    split at h
    · rename_i cols3 tr3 heq
      cases j with
      | zero =>
        obtain ⟨c, hc, ha, hm⟩ := scanRow_true_leaf t cfg xc sy n z cols tr cols3 tr3 heq i hi
        refine ⟨c, by simpa using hc, ha, ?_⟩
        have hsub := scanRect_cols_sub t cfg xc z n m (sy + 1) cols3 tr3 hm
        rw [h] at hsub
        exact hsub
      | succ j =>
        obtain ⟨c, hc, ha, hm⟩ := ih (sy + 1) cols3 tr3 cols2 tr2 h j (by omega) i hi
        refine ⟨c, ?_, ha, hm⟩
        have harith : sy + 1 + (j : Int) = sy + ((j + 1 : Nat) : Int) := by push_cast; ring
        rw [harith] at hc
        exact hc
    · simp at h

lemma scanRect_probes (t : VoxelTree) (cfg : GrowCfg) (xc z : Int) (n : Nat) :
    ∀ (m : Nat) (sy : Int) (cols : List RGBA) (tr : List V3) (p : V3),
    p ∈ (scanRect t cfg xc z n sy m cols tr).2.2 →
    p ∈ tr ∨ (p.x = xc ∧ sy ≤ p.y ∧ p.y < sy + (m : Int) ∧ z ≤ p.z ∧ p.z < z + (n : Int)) := by
  intro m
  induction m with
  | zero =>
    intro sy cols tr p hp
    rw [scanRect] at hp
    exact Or.inl hp
  | succ m ih =>
    intro sy cols tr p hp
    rw [scanRect] at hp
    split at hp
    · rename_i cols3 tr3 heq
      rcases ih (sy + 1) cols3 tr3 p hp with hin | hrange
      · have h1 : p ∈ (scanRow t cfg xc sy z n cols tr).2.2 := by rw [heq]; exact hin
        rcases scanRow_probes t cfg xc sy n z cols tr p h1 with hin2 | hrow
        · exact Or.inl hin2
        · exact Or.inr ⟨hrow.1, by omega, by omega, by omega, by omega⟩
      · exact Or.inr ⟨hrange.1, by omega, by omega, by omega, by omega⟩
    · rename_i cols3 tr3 heq
      have h1 : p ∈ (scanRow t cfg xc sy z n cols tr).2.2 := by rw [heq]; exact hp
      rcases scanRow_probes t cfg xc sy n z cols tr p h1 with hin2 | hrow
      · exact Or.inl hin2
      · exact Or.inr ⟨hrow.1, by omega, by omega, by omega, by omega⟩

lemma growZ_cols_sub (t : VoxelTree) (cfg : GrowCfg) (x y z mm : Int) :
    ∀ (fuel : Nat) (zp : Int) (cols : List RGBA) (tr : List V3),
    cols ⊆ (growZ t cfg x y z mm zp fuel cols tr).2.1 := by
  intro fuel
  induction fuel with
  | zero => intro zp cols tr; rw [growZ]; exact fun a hm => hm
  | succ fuel ih =>
    intro zp cols tr
    rw [growZ]
    split
    · split
      · rename_i c heq
        split
        · intro a hma
          exact ih (zp + 1) (cols ++ [c]) _ (List.mem_append_left _ hma)
        · exact fun a hm => hm
      · exact fun a hm => hm
    · exact fun a hm => hm

lemma growZ_true_leaf (t : VoxelTree) (cfg : GrowCfg) (x y z mm : Int) :
    ∀ (fuel : Nat) (zp : Int) (cols : List RGBA) (tr : List V3) (w : Int),
    zp ≤ w → w < (growZ t cfg x y z mm zp fuel cols tr).1 →
    ∃ c, getCell t ⟨x, y, w⟩ = TreeBody.Leaf c ∧ cfg.accept c = true ∧
      c ∈ (growZ t cfg x y z mm zp fuel cols tr).2.1 := by
  intro fuel
  induction fuel with
  | zero =>
    intro zp cols tr w h1 h2
    rw [growZ] at h2
    omega
  | succ fuel ih =>
    intro zp cols tr w h1 h2
    rw [growZ] at h2 ⊢
    split at h2
    · rename_i hguard
      rw [if_pos hguard]
      cases heq : getCell t ⟨x, y, zp⟩ with
      | Leaf c =>
        rw [heq] at h2
        dsimp only at h2 ⊢
        by_cases ha : cfg.accept c = true
        · rw [if_pos ha] at h2 ⊢
          rcases eq_or_lt_of_le h1 with rfl | hlt
          · refine ⟨c, heq, ha, ?_⟩
            exact growZ_cols_sub t cfg x y z mm fuel (zp + 1) (cols ++ [c]) _
              (List.mem_append_right _ (by simp))
          · exact ih (zp + 1) (cols ++ [c]) _ w (by omega) h2
        · rw [if_neg ha] at h2
          dsimp only at h2
          omega
      | Empty =>
        rw [heq] at h2
        dsimp only at h2
        omega
    · rename_i hguard
      dsimp only at h2
      omega

lemma growZ_cap (t : VoxelTree) (cfg : GrowCfg) (x y z mm : Int) :
    ∀ (fuel : Nat) (zp : Int) (cols : List RGBA) (tr : List V3),
    (growZ t cfg x y z mm zp fuel cols tr).1 ≤ max zp (z + mm) := by
  intro fuel
  induction fuel with
  | zero => intro zp cols tr; rw [growZ]; exact le_max_left _ _
  | succ fuel ih =>
    intro zp cols tr
    rw [growZ]
    split
    · rename_i hguard
      cases heq : getCell t ⟨x, y, zp⟩ with
      | Leaf c =>
        dsimp only
        by_cases ha : cfg.accept c = true
        · rw [if_pos ha]
          refine le_trans (ih (zp + 1) (cols ++ [c]) (tr ++ [⟨x, y, zp⟩])) ?_
          have h2 : zp + 1 ≤ z + mm := by omega
          rw [max_eq_right h2]
          exact le_max_right _ _
        · rw [if_neg ha]
          exact le_max_left _ _
      | Empty => exact le_max_left _ _
    · exact le_max_left _ _

lemma growZ_len (t : VoxelTree) (cfg : GrowCfg) (x y z mm : Int) {len : Int}
    (hlen : cfg.lenBound = some len) :
    ∀ (fuel : Nat) (zp : Int) (cols : List RGBA) (tr : List V3),
    (growZ t cfg x y z mm zp fuel cols tr).1 ≤ max zp len := by
  intro fuel
  induction fuel with
  | zero => intro zp cols tr; rw [growZ]; exact le_max_left _ _
  | succ fuel ih =>
    intro zp cols tr
    rw [growZ]
    split
    · rename_i hguard
      have hzlt : zp < len := by
        have h1 := hguard.1
        rw [GrowCfg.inBound, hlen] at h1
        exact of_decide_eq_true h1
      cases heq : getCell t ⟨x, y, zp⟩ with
      | Leaf c =>
        dsimp only
        by_cases ha : cfg.accept c = true
        · rw [if_pos ha]
          refine le_trans (ih (zp + 1) (cols ++ [c]) (tr ++ [⟨x, y, zp⟩])) ?_
          have h2 : zp + 1 ≤ len := by omega
          rw [max_eq_right h2]
          exact le_max_right _ _
        · rw [if_neg ha]
          exact le_max_left _ _
      | Empty => exact le_max_left _ _
    · exact le_max_left _ _

lemma growZ_probes (t : VoxelTree) (cfg : GrowCfg) (x y z mm : Int) :
    ∀ (fuel : Nat) (zp : Int) (cols : List RGBA) (tr : List V3) (p : V3),
    p ∈ (growZ t cfg x y z mm zp fuel cols tr).2.2 →
    p ∈ tr ∨ (p.x = x ∧ p.y = y ∧ zp ≤ p.z ∧ cfg.inBound p.z = true ∧ p.z - z < mm) := by
  intro fuel
  induction fuel with
  | zero =>
    intro zp cols tr p hp
    rw [growZ] at hp
    exact Or.inl hp
  | succ fuel ih =>
    intro zp cols tr p hp
    rw [growZ] at hp
    split at hp
    · rename_i hguard
      cases heq : getCell t ⟨x, y, zp⟩ with
      | Leaf c =>
        rw [heq] at hp
        dsimp only at hp
        by_cases ha : cfg.accept c = true
        · rw [if_pos ha] at hp
          rcases ih (zp + 1) (cols ++ [c]) (tr ++ [⟨x, y, zp⟩]) p hp with hin | hrange
          · rcases List.mem_append.mp hin with hin2 | hin2
            · exact Or.inl hin2
            · have hpv : p = (⟨x, y, zp⟩ : V3) := by simpa using hin2
              subst hpv
              exact Or.inr ⟨rfl, rfl, le_refl _, hguard.1, hguard.2⟩
          · exact Or.inr ⟨hrange.1, hrange.2.1, by omega, hrange.2.2.2.1, hrange.2.2.2.2⟩
        · rw [if_neg ha] at hp
          rcases List.mem_append.mp hp with hin2 | hin2
          · exact Or.inl hin2
          · have hpv : p = (⟨x, y, zp⟩ : V3) := by simpa using hin2
            subst hpv
            exact Or.inr ⟨rfl, rfl, le_refl _, hguard.1, hguard.2⟩
      | Empty =>
        rw [heq] at hp
        dsimp only at hp
        rcases List.mem_append.mp hp with hin2 | hin2
        · exact Or.inl hin2
        · have hpv : p = (⟨x, y, zp⟩ : V3) := by simpa using hin2
          subst hpv
          exact Or.inr ⟨rfl, rfl, le_refl _, hguard.1, hguard.2⟩
    · exact Or.inl hp

lemma growY_cols_sub (t : VoxelTree) (cfg : GrowCfg) (x z : Int) (n : Nat) (y mm : Int) :
    ∀ (fuel : Nat) (yp : Int) (cols : List RGBA) (tr : List V3),
    cols ⊆ (growY t cfg x z n y mm yp fuel cols tr).2.1 := by
  intro fuel
  induction fuel with
  | zero => intro yp cols tr; rw [growY]; exact fun a hm => hm
  | succ fuel ih =>
    intro yp cols tr
    rw [growY]
    split
    · rcases hs : scanRow t cfg x yp z n cols tr with ⟨b, cols2, tr2⟩
      cases b
      · dsimp only
        intro a hma
        have h1 : a ∈ (scanRow t cfg x yp z n cols tr).2.1 :=
          scanRow_cols_sub t cfg x yp n z cols tr hma
        rw [hs] at h1
        exact h1
      · dsimp only
        intro a hma
        have h1 : a ∈ (scanRow t cfg x yp z n cols tr).2.1 :=
          scanRow_cols_sub t cfg x yp n z cols tr hma
        rw [hs] at h1
        exact ih (yp + 1) cols2 tr2 h1
    · exact fun a hm => hm

lemma growY_true_rows (t : VoxelTree) (cfg : GrowCfg) (x z : Int) (n : Nat) (y mm : Int) :
    ∀ (fuel : Nat) (yp : Int) (cols : List RGBA) (tr : List V3) (sy : Int),
    yp ≤ sy → sy < (growY t cfg x z n y mm yp fuel cols tr).1 →
    ∀ i : Nat, i < n →
      ∃ c, getCell t ⟨x, sy, z + (i : Int)⟩ = TreeBody.Leaf c ∧ cfg.accept c = true ∧
        c ∈ (growY t cfg x z n y mm yp fuel cols tr).2.1 := by
  intro fuel
  induction fuel with
  | zero =>
    intro yp cols tr sy h1 h2
    rw [growY] at h2
    omega
  | succ fuel ih =>
    intro yp cols tr sy h1 h2 i hi
    rw [growY] at h2 ⊢
    split at h2
    · rename_i hguard
      rw [if_pos hguard]
      rcases hs : scanRow t cfg x yp z n cols tr with ⟨b, cols2, tr2⟩
      rw [hs] at h2
      cases b
      · dsimp only at h2
        omega
      · dsimp only at h2
        rcases eq_or_lt_of_le h1 with rfl | hlt
        · obtain ⟨c, hc, ha, hm⟩ := scanRow_true_leaf t cfg x yp n z cols tr cols2 tr2 hs i hi
          exact ⟨c, hc, ha, growY_cols_sub t cfg x z n y mm fuel (yp + 1) cols2 tr2 hm⟩
        · exact ih (yp + 1) cols2 tr2 sy (by omega) h2 i hi
    · dsimp only at h2
      omega

lemma growY_cap (t : VoxelTree) (cfg : GrowCfg) (x z : Int) (n : Nat) (y mm : Int) :
    ∀ (fuel : Nat) (yp : Int) (cols : List RGBA) (tr : List V3),
    (growY t cfg x z n y mm yp fuel cols tr).1 ≤ max yp (y + mm) := by
  intro fuel
  induction fuel with
  | zero => intro yp cols tr; rw [growY]; exact le_max_left _ _
  | succ fuel ih =>
    intro yp cols tr
    rw [growY]
    split
    · rename_i hguard
      rcases hs : scanRow t cfg x yp z n cols tr with ⟨b, cols2, tr2⟩
      cases b
      · exact le_max_left _ _
      · refine le_trans (ih (yp + 1) cols2 tr2) ?_
        have h2 : yp + 1 ≤ y + mm := by omega
        rw [max_eq_right h2]
        exact le_max_right _ _
    · exact le_max_left _ _

lemma growY_len (t : VoxelTree) (cfg : GrowCfg) (x z : Int) (n : Nat) (y mm : Int)
    {len : Int} (hlen : cfg.lenBound = some len) :
    ∀ (fuel : Nat) (yp : Int) (cols : List RGBA) (tr : List V3),
    (growY t cfg x z n y mm yp fuel cols tr).1 ≤ max yp len := by
  intro fuel
  induction fuel with
  | zero => intro yp cols tr; rw [growY]; exact le_max_left _ _
  | succ fuel ih =>
    intro yp cols tr
    rw [growY]
    split
    · rename_i hguard
      have hzlt : yp < len := by
        have h1 := hguard.1
        rw [GrowCfg.inBound, hlen] at h1
        exact of_decide_eq_true h1
      rcases hs : scanRow t cfg x yp z n cols tr with ⟨b, cols2, tr2⟩
      cases b
      · exact le_max_left _ _
      · refine le_trans (ih (yp + 1) cols2 tr2) ?_
        have h2 : yp + 1 ≤ len := by omega
        rw [max_eq_right h2]
        exact le_max_right _ _
    · exact le_max_left _ _

lemma growY_probes (t : VoxelTree) (cfg : GrowCfg) (x z : Int) (n : Nat) (y mm : Int) :
    ∀ (fuel : Nat) (yp : Int) (cols : List RGBA) (tr : List V3) (p : V3),
    p ∈ (growY t cfg x z n y mm yp fuel cols tr).2.2 →
    p ∈ tr ∨ (p.x = x ∧ yp ≤ p.y ∧ cfg.inBound p.y = true ∧ p.y - y < mm ∧
      z ≤ p.z ∧ p.z < z + (n : Int)) := by
  intro fuel
  induction fuel with
  | zero =>
    intro yp cols tr p hp
    rw [growY] at hp
    exact Or.inl hp
  | succ fuel ih =>
    intro yp cols tr p hp
    rw [growY] at hp
    split at hp
    · rename_i hguard
      rcases hs : scanRow t cfg x yp z n cols tr with ⟨b, cols2, tr2⟩
      rw [hs] at hp
      cases b
      · dsimp only at hp
        have h1 : p ∈ (scanRow t cfg x yp z n cols tr).2.2 := by rw [hs]; exact hp
        rcases scanRow_probes t cfg x yp n z cols tr p h1 with hin | hrow
        · exact Or.inl hin
        · refine Or.inr ⟨hrow.1, by omega, ?_, by omega, by omega, by omega⟩
          rw [hrow.2.1]
          exact hguard.1
      · dsimp only at hp
        rcases ih (yp + 1) cols2 tr2 p hp with hin | hrange
        · have h1 : p ∈ (scanRow t cfg x yp z n cols tr).2.2 := by rw [hs]; exact hin
          rcases scanRow_probes t cfg x yp n z cols tr p h1 with hin2 | hrow
          · exact Or.inl hin2
          · refine Or.inr ⟨hrow.1, by omega, ?_, by omega, by omega, by omega⟩
            rw [hrow.2.1]
            exact hguard.1
        · exact Or.inr ⟨hrange.1, by omega, hrange.2.2.1, by omega, by omega, by omega⟩
    · exact Or.inl hp

lemma growX_cols_sub (t : VoxelTree) (cfg : GrowCfg) (y z : Int) (m n : Nat) (x mm : Int) :
    ∀ (fuel : Nat) (xp : Int) (cols : List RGBA) (tr : List V3),
    cols ⊆ (growX t cfg y z m n x mm xp fuel cols tr).2.1 := by
  intro fuel
  induction fuel with
  | zero => intro xp cols tr; rw [growX]; exact fun a hm => hm
  | succ fuel ih =>
    intro xp cols tr
    rw [growX]
    split
    · rcases hs : scanRect t cfg xp z n y m cols tr with ⟨b, cols2, tr2⟩
      cases b
      · dsimp only
        intro a hma
        have h1 : a ∈ (scanRect t cfg xp z n y m cols tr).2.1 :=
          scanRect_cols_sub t cfg xp z n m y cols tr hma
        rw [hs] at h1
        exact h1
      · dsimp only
        intro a hma
        have h1 : a ∈ (scanRect t cfg xp z n y m cols tr).2.1 :=
          scanRect_cols_sub t cfg xp z n m y cols tr hma
        rw [hs] at h1
        exact ih (xp + 1) cols2 tr2 h1
    · exact fun a hm => hm

lemma growX_true_rects (t : VoxelTree) (cfg : GrowCfg) (y z : Int) (m n : Nat) (x mm : Int) :
    ∀ (fuel : Nat) (xp : Int) (cols : List RGBA) (tr : List V3) (sx : Int),
    xp ≤ sx → sx < (growX t cfg y z m n x mm xp fuel cols tr).1 →
    ∀ j : Nat, j < m → ∀ i : Nat, i < n →
      ∃ c, getCell t ⟨sx, y + (j : Int), z + (i : Int)⟩ = TreeBody.Leaf c ∧
        cfg.accept c = true ∧ c ∈ (growX t cfg y z m n x mm xp fuel cols tr).2.1 := by
  intro fuel
  induction fuel with
  | zero =>
    intro xp cols tr sx h1 h2
    rw [growX] at h2
    omega
  | succ fuel ih =>
    intro xp cols tr sx h1 h2 j hj i hi
    rw [growX] at h2 ⊢
    split at h2
    · rename_i hguard
      rw [if_pos hguard]
      rcases hs : scanRect t cfg xp z n y m cols tr with ⟨b, cols2, tr2⟩
      rw [hs] at h2
      cases b
      · dsimp only at h2
        omega
      · dsimp only at h2
        rcases eq_or_lt_of_le h1 with rfl | hlt
        · obtain ⟨c, hc, ha, hm⟩ := scanRect_true_leaf t cfg xp z n m y cols tr cols2 tr2 hs j hj i hi
          exact ⟨c, hc, ha, growX_cols_sub t cfg y z m n x mm fuel (xp + 1) cols2 tr2 hm⟩
        · exact ih (xp + 1) cols2 tr2 sx (by omega) h2 j hj i hi
    · dsimp only at h2
      omega

lemma growX_cap (t : VoxelTree) (cfg : GrowCfg) (y z : Int) (m n : Nat) (x mm : Int) :
    ∀ (fuel : Nat) (xp : Int) (cols : List RGBA) (tr : List V3),
    (growX t cfg y z m n x mm xp fuel cols tr).1 ≤ max xp (x + mm) := by
  intro fuel
  induction fuel with
  | zero => intro xp cols tr; rw [growX]; exact le_max_left _ _
  | succ fuel ih =>
    intro xp cols tr
    rw [growX]
    split
    · rename_i hguard
      rcases hs : scanRect t cfg xp z n y m cols tr with ⟨b, cols2, tr2⟩
      cases b
      · exact le_max_left _ _
      · refine le_trans (ih (xp + 1) cols2 tr2) ?_
        have h2 : xp + 1 ≤ x + mm := by omega
        rw [max_eq_right h2]
        exact le_max_right _ _
    · exact le_max_left _ _

lemma growX_probes (t : VoxelTree) (cfg : GrowCfg) (y z : Int) (m n : Nat) (x mm : Int) :
    ∀ (fuel : Nat) (xp : Int) (cols : List RGBA) (tr : List V3) (p : V3),
    p ∈ (growX t cfg y z m n x mm xp fuel cols tr).2.2 →
    p ∈ tr ∨ (xp ≤ p.x ∧ cfg.inBound p.x = true ∧ p.x - x < mm ∧
      y ≤ p.y ∧ p.y < y + (m : Int) ∧ z ≤ p.z ∧ p.z < z + (n : Int)) := by
  intro fuel
  induction fuel with
  | zero =>
    intro xp cols tr p hp
    rw [growX] at hp
    exact Or.inl hp
  | succ fuel ih =>
    intro xp cols tr p hp
    rw [growX] at hp
    split at hp
    · rename_i hguard
      rcases hs : scanRect t cfg xp z n y m cols tr with ⟨b, cols2, tr2⟩
      rw [hs] at hp
      cases b
      · dsimp only at hp
        have h1 : p ∈ (scanRect t cfg xp z n y m cols tr).2.2 := by rw [hs]; exact hp
        rcases scanRect_probes t cfg xp z n m y cols tr p h1 with hin | hrect
        · exact Or.inl hin
        · refine Or.inr ⟨by omega, ?_, by omega, by omega, by omega, by omega, by omega⟩
          rw [hrect.1]
          exact hguard.1
      · dsimp only at hp
        rcases ih (xp + 1) cols2 tr2 p hp with hin | hrange
        · have h1 : p ∈ (scanRect t cfg xp z n y m cols tr).2.2 := by rw [hs]; exact hin
          rcases scanRect_probes t cfg xp z n m y cols tr p h1 with hin2 | hrect
          · exact Or.inl hin2
          · refine Or.inr ⟨by omega, ?_, by omega, by omega, by omega, by omega, by omega⟩
            rw [hrect.1]
            exact hguard.1
        · exact Or.inr ⟨by omega, hrange.2.1, by omega, by omega, by omega, by omega, by omega⟩
    · exact Or.inl hp

lemma getCell_head {t : VoxelTree} {q : V3 × RGBA} {rest : List (V3 × RGBA)}
    (hc : t.cells = q :: rest) : getCell t q.1 = TreeBody.Leaf q.2 := by
  rw [getCell, hc, lookupColor, if_pos rfl]

lemma lookupColor_mem : ∀ {l : List (V3 × RGBA)} {v : V3} {c : RGBA},
    lookupColor l v = some c → (v, c) ∈ l := by
  intro l
  induction l with
  | nil => intro v c h; rw [lookupColor] at h; cases h
  | cons q rest ih =>
    intro v c h
    rw [lookupColor] at h
    by_cases hq : q.1 = v
    · rw [if_pos hq] at h
      injection h with h2
      subst h2
      subst hq
      exact List.mem_cons_self _ _
    · rw [if_neg hq] at h
      exact List.mem_cons_of_mem _ (ih h)

lemma lookupColor_isSome_of_mem : ∀ {l : List (V3 × RGBA)} {v : V3} {c : RGBA},
    (v, c) ∈ l → ∃ c2, lookupColor l v = some c2 := by
  intro l
  induction l with
  | nil => intro v c h; cases h
  | cons q rest ih =>
    intro v c h
    rw [lookupColor]
    by_cases hq : q.1 = v
    · exact ⟨q.2, by rw [if_pos hq]⟩
    · rw [if_neg hq]
      rcases List.mem_cons.mp h with rfl | h2
      · exact absurd rfl hq
      · exact ih h2

lemma getCell_ne_empty_iff {t : VoxelTree} {v : V3} :
    getCell t v ≠ TreeBody.Empty ↔ ∃ c, (v, c) ∈ t.cells := by
  rw [getCell]
  cases hl : lookupColor t.cells v with
  | none =>
    constructor
    · intro h; exact absurd rfl h
    · rintro ⟨c, hm⟩
      obtain ⟨c2, hl2⟩ := lookupColor_isSome_of_mem hm
      rw [hl] at hl2
      cases hl2
  | some c =>
    constructor
    · intro _; exact ⟨c, lookupColor_mem hl⟩
    · intro _ h; cases h

lemma getCell_eq_leaf_iff_lookup {t : VoxelTree} {v : V3} {c : RGBA} :
    getCell t v = TreeBody.Leaf c ↔ lookupColor t.cells v = some c := by
  rw [getCell]
  cases hl : lookupColor t.cells v with
  | none =>
    constructor
    · intro h; cases h
    · intro h; cases h
  | some c2 =>
    constructor
    · intro h; cases h; rfl
    · intro h; cases h; rfl

lemma lossyPass_spec {t : VoxelTree} {mm : Int} {r : LossyRegion} {t2 : VoxelTree}
    (h : lossyPass t mm = some (r, t2)) :
    (r.x + 1 ≤ r.xp ∧ r.y + 1 ≤ r.yp ∧ r.z + 1 ≤ r.zp) ∧
    (∀ v : V3, r.inBox v → ∃ c, getCell t v = TreeBody.Leaf c ∧ c ∈ r.colors) ∧
    (∀ p : V3 × RGBA, p ∈ t2.cells ↔ p ∈ t.cells ∧ ¬ r.inBox p.1) ∧
    (r.xp - r.x ≤ max 1 mm ∧ r.yp - r.y ≤ max 1 mm ∧ r.zp - r.z ≤ max 1 mm) := by
  cases hc : t.cells with
  | nil =>
    rw [lossyPass] at h
    rw [getAny, hc] at h
    simp at h
  | cons q rest =>
    have hg : getAny t = some q := by rw [getAny, hc]; rfl
    rw [lossyPass, hg] at h
    simp only [Option.some.injEq, Prod.mk.injEq] at h
    obtain ⟨hr, ht2⟩ := h
    subst hr
    subst ht2
    set g1 := growZ t lossyCfg q.1.x q.1.y q.1.z mm (q.1.z + 1) (mm - 1).toNat [q.2] [] with hg1
    set g2 := growY t lossyCfg q.1.x q.1.z (g1.1 - q.1.z).toNat q.1.y mm (q.1.y + 1)
      (mm - 1).toNat g1.2.1 g1.2.2 with hg2
    set g3 := growX t lossyCfg q.1.y q.1.z (g2.1 - q.1.y).toNat (g1.1 - q.1.z).toNat q.1.x mm
      (q.1.x + 1) (mm - 1).toNat g2.2.1 g2.2.2 with hg3
    have m1 : q.1.z + 1 ≤ g1.1 := by rw [hg1]; apply growZ_start_le
    have m2 : q.1.y + 1 ≤ g2.1 := by rw [hg2]; apply growY_start_le
    have m3 : q.1.x + 1 ≤ g3.1 := by rw [hg3]; apply growX_start_le
    refine ⟨⟨m3, m2, m1⟩, ?_, ?_, ?_, ?_, ?_⟩
    · -- every box cell is an occupied leaf whose color was collected
      rintro ⟨vx, vy, vz⟩ hv
      obtain ⟨h1, h2, h3, h4, h5, h6⟩ := hv
      dsimp only at h1 h2 h3 h4 h5 h6
      rcases eq_or_lt_of_le h1 with heqx | hltx
      · rcases eq_or_lt_of_le h3 with heqy | hlty
        · rcases eq_or_lt_of_le h5 with heqz | hltz
          · refine ⟨q.2, ?_, ?_⟩
            · rw [← heqx, ← heqy, ← heqz]
              exact getCell_head hc
            · dsimp only
              rw [hg3]
              apply growX_cols_sub
              rw [hg2]
              apply growY_cols_sub
              rw [hg1]
              apply growZ_cols_sub
              simp
          · rw [hg1] at h6
            obtain ⟨c, hcell, hacc, hm⟩ := growZ_true_leaf t lossyCfg q.1.x q.1.y q.1.z mm
              (mm - 1).toNat (q.1.z + 1) [q.2] [] vz (by omega) h6
            refine ⟨c, by rw [← heqx, ← heqy]; exact hcell, ?_⟩
            dsimp only
            rw [hg3]
            apply growX_cols_sub
            rw [hg2]
            apply growY_cols_sub
            rw [hg1]
            exact hm
        · rw [hg2] at h4
          obtain ⟨c, hcell, hacc, hm⟩ := growY_true_rows t lossyCfg q.1.x q.1.z
            (g1.1 - q.1.z).toNat q.1.y mm (mm - 1).toNat (q.1.y + 1) g1.2.1 g1.2.2 vy
            (by omega) h4 (vz - q.1.z).toNat (by omega)
          have hz2 : q.1.z + ((vz - q.1.z).toNat : Int) = vz := by omega
          rw [hz2] at hcell
          refine ⟨c, by rw [← heqx]; exact hcell, ?_⟩
          dsimp only
          rw [hg3]
          apply growX_cols_sub
          rw [hg2]
          exact hm
      · rw [hg3] at h2
        obtain ⟨c, hcell, hacc, hm⟩ := growX_true_rects t lossyCfg q.1.y q.1.z
          (g2.1 - q.1.y).toNat (g1.1 - q.1.z).toNat q.1.x mm (mm - 1).toNat (q.1.x + 1)
          g2.2.1 g2.2.2 vx (by omega) h2 (vy - q.1.y).toNat (by omega) (vz - q.1.z).toNat (by omega)
        have hy2 : q.1.y + ((vy - q.1.y).toNat : Int) = vy := by omega
        have hz2 : q.1.z + ((vz - q.1.z).toNat : Int) = vz := by omega
        rw [hy2, hz2] at hcell
        refine ⟨c, hcell, ?_⟩
        dsimp only
        rw [hg3]
        exact hm
    · -- clearing characterization
      intro p
      rw [mem_clearBox, hc]
      refine and_congr_right fun _ => not_congr ?_
      show _ ↔ (LossyRegion.inBox _ p.1)
      rw [LossyRegion.inBox]
      dsimp only
      omega
    · -- caps
      have c3 := growX_cap t lossyCfg q.1.y q.1.z (g2.1 - q.1.y).toNat (g1.1 - q.1.z).toNat
        q.1.x mm (mm - 1).toNat (q.1.x + 1) g2.2.1 g2.2.2
      rw [← hg3, max_add_add_left] at c3
      dsimp only
      omega
    · have c2 := growY_cap t lossyCfg q.1.x q.1.z (g1.1 - q.1.z).toNat q.1.y mm
        (mm - 1).toNat (q.1.y + 1) g1.2.1 g1.2.2
      rw [← hg2, max_add_add_left] at c2
      dsimp only
      omega
    · have c1 := growZ_cap t lossyCfg q.1.x q.1.y q.1.z mm (mm - 1).toNat (q.1.z + 1) [q.2] []
      rw [← hg1, max_add_add_left] at c1
      dsimp only
      omega

lemma losslessCfg_inBound {gammaFn : RGBA → RGBA} {matchFn : RGBA → Nat}
    {matched : Nat} {len v : Int} :
    (losslessCfg gammaFn matchFn matched len).inBound v = true ↔ v < len := by
  simp [GrowCfg.inBound, losslessCfg]

lemma losslessCfg_accept {gammaFn : RGBA → RGBA} {matchFn : RGBA → Nat}
    {matched : Nat} {len : Int} {c : RGBA} :
    (losslessCfg gammaFn matchFn matched len).accept c = true ↔
      matchFn (gammaFn c) = matched := by
  simp [losslessCfg]

lemma losslessCfg_lenBound {gammaFn : RGBA → RGBA} {matchFn : RGBA → Nat}
    {matched : Nat} {len : Int} :
    (losslessCfg gammaFn matchFn matched len).lenBound = some len := rfl

lemma losslessPass_spec {gammaFn : RGBA → RGBA} {matchFn : RGBA → Nat}
    {t : VoxelTree} {len mm : Int} {r : LosslessRegion} {pr : List V3} {t2 : VoxelTree}
    (h : losslessPass gammaFn matchFn t len mm = some (r, pr, t2)) :
    (r.x + 1 ≤ r.xp ∧ r.y + 1 ≤ r.yp ∧ r.z + 1 ≤ r.zp) ∧
    (∀ v : V3, r.inBox v → ∃ c, getCell t v = TreeBody.Leaf c ∧
      matchFn (gammaFn c) = r.matched) ∧
    (∀ p : V3 × RGBA, p ∈ t2.cells ↔ p ∈ t.cells ∧ ¬ r.inBox p.1) ∧
    (r.xp - r.x ≤ max 1 mm ∧ r.yp - r.y ≤ max 1 mm ∧ r.zp - r.z ≤ max 1 mm) ∧
    (∀ p : V3, p ∈ pr →
      ((p.x = r.x ∧ p.y = r.y ∧ r.z + 1 ≤ p.z ∧ p.z < len) ∨
       (p.x = r.x ∧ r.y + 1 ≤ p.y ∧ p.y < len ∧ r.z ≤ p.z ∧ p.z < r.zp) ∨
       (r.x + 1 ≤ p.x ∧ p.x < len ∧ r.y ≤ p.y ∧ p.y < r.yp ∧ r.z ≤ p.z ∧ p.z < r.zp))) ∧
    (r.zp ≤ max (r.z + 1) len ∧ r.yp ≤ max (r.y + 1) len) := by
  cases hc : t.cells with
  | nil =>
    rw [losslessPass] at h
    rw [getAny, hc] at h
    simp at h
  | cons q rest =>
    have hg : getAny t = some q := by rw [getAny, hc]; rfl
    rw [losslessPass, hg] at h
    simp only [Option.some.injEq, Prod.mk.injEq] at h
    obtain ⟨hr, hpr, ht2⟩ := h
    subst hr
    subst hpr
    subst ht2
    set cfg := losslessCfg gammaFn matchFn (matchFn (gammaFn q.2)) len with hcfg
    set g1 := growZ t cfg q.1.x q.1.y q.1.z mm (q.1.z + 1) (len - (q.1.z + 1)).toNat [] []
      with hg1
    set g2 := growY t cfg q.1.x q.1.z (g1.1 - q.1.z).toNat q.1.y mm (q.1.y + 1)
      (len - (q.1.y + 1)).toNat g1.2.1 g1.2.2 with hg2
    set g3 := growX t cfg q.1.y q.1.z (g2.1 - q.1.y).toNat (g1.1 - q.1.z).toNat q.1.x mm
      (q.1.x + 1) (len - (q.1.x + 1)).toNat g2.2.1 g2.2.2 with hg3
    have m1 : q.1.z + 1 ≤ g1.1 := by rw [hg1]; apply growZ_start_le
    have m2 : q.1.y + 1 ≤ g2.1 := by rw [hg2]; apply growY_start_le
    have m3 : q.1.x + 1 ≤ g3.1 := by rw [hg3]; apply growX_start_le
    refine ⟨⟨m3, m2, m1⟩, ?_, ?_, ⟨?_, ?_, ?_⟩, ?_, ?_, ?_⟩
    · -- every box cell is an occupied leaf matching the seed's palette index
      rintro ⟨vx, vy, vz⟩ hv
      obtain ⟨h1, h2, h3, h4, h5, h6⟩ := hv
      dsimp only at h1 h2 h3 h4 h5 h6
      rcases eq_or_lt_of_le h1 with heqx | hltx
      · rcases eq_or_lt_of_le h3 with heqy | hlty
        · rcases eq_or_lt_of_le h5 with heqz | hltz
          · refine ⟨q.2, ?_, rfl⟩
            rw [← heqx, ← heqy, ← heqz]
            exact getCell_head hc
          · rw [hg1] at h6
            obtain ⟨c, hcell, hacc, hm⟩ := growZ_true_leaf t cfg q.1.x q.1.y q.1.z mm
              (len - (q.1.z + 1)).toNat (q.1.z + 1) [] [] vz (by omega) h6
            refine ⟨c, by rw [← heqx, ← heqy]; exact hcell, ?_⟩
            rw [hcfg] at hacc
            exact losslessCfg_accept.mp hacc
        · rw [hg2] at h4
          obtain ⟨c, hcell, hacc, hm⟩ := growY_true_rows t cfg q.1.x q.1.z
            (g1.1 - q.1.z).toNat q.1.y mm (len - (q.1.y + 1)).toNat (q.1.y + 1) g1.2.1 g1.2.2 vy
            (by omega) h4 (vz - q.1.z).toNat (by omega)
          have hz2 : q.1.z + ((vz - q.1.z).toNat : Int) = vz := by omega
          rw [hz2] at hcell
          refine ⟨c, by rw [← heqx]; exact hcell, ?_⟩
          rw [hcfg] at hacc
          exact losslessCfg_accept.mp hacc
      · rw [hg3] at h2
        obtain ⟨c, hcell, hacc, hm⟩ := growX_true_rects t cfg q.1.y q.1.z
          (g2.1 - q.1.y).toNat (g1.1 - q.1.z).toNat q.1.x mm (len - (q.1.x + 1)).toNat
          (q.1.x + 1) g2.2.1 g2.2.2 vx (by omega) h2 (vy - q.1.y).toNat (by omega)
          (vz - q.1.z).toNat (by omega)
        have hy2 : q.1.y + ((vy - q.1.y).toNat : Int) = vy := by omega
        have hz2 : q.1.z + ((vz - q.1.z).toNat : Int) = vz := by omega
        rw [hy2, hz2] at hcell
        refine ⟨c, hcell, ?_⟩
        rw [hcfg] at hacc
        exact losslessCfg_accept.mp hacc
    · intro p
      rw [mem_clearBox, hc]
      refine and_congr_right fun _ => not_congr ?_
      show _ ↔ (LosslessRegion.inBox _ p.1)
      rw [LosslessRegion.inBox]
      dsimp only
      omega
    · have c3 := growX_cap t cfg q.1.y q.1.z (g2.1 - q.1.y).toNat (g1.1 - q.1.z).toNat
        q.1.x mm (len - (q.1.x + 1)).toNat (q.1.x + 1) g2.2.1 g2.2.2
      rw [← hg3, max_add_add_left] at c3
      dsimp only
      omega
    · have c2 := growY_cap t cfg q.1.x q.1.z (g1.1 - q.1.z).toNat q.1.y mm
        (len - (q.1.y + 1)).toNat (q.1.y + 1) g1.2.1 g1.2.2
      rw [← hg2, max_add_add_left] at c2
      dsimp only
      omega
    · have c1 := growZ_cap t cfg q.1.x q.1.y q.1.z mm (len - (q.1.z + 1)).toNat
        (q.1.z + 1) [] []
      rw [← hg1, max_add_add_left] at c1
      dsimp only
      omega
    · -- every probed coordinate is a z-run, y-slab or x-slab probe
      intro p hp
      dsimp only
      rw [hg3] at hp
      rcases growX_probes t cfg q.1.y q.1.z (g2.1 - q.1.y).toNat (g1.1 - q.1.z).toNat
        q.1.x mm (len - (q.1.x + 1)).toNat (q.1.x + 1) g2.2.1 g2.2.2 p hp with hin | hx
      · rw [hg2] at hin
        rcases growY_probes t cfg q.1.x q.1.z (g1.1 - q.1.z).toNat q.1.y mm
          (len - (q.1.y + 1)).toNat (q.1.y + 1) g1.2.1 g1.2.2 p hin with hin2 | hy
        · rw [hg1] at hin2
          rcases growZ_probes t cfg q.1.x q.1.y q.1.z mm (len - (q.1.z + 1)).toNat
            (q.1.z + 1) [] [] p hin2 with hin3 | hz
          · cases hin3
          · obtain ⟨hz1, hz2, hz3, hz4, hz5⟩ := hz
            rw [hcfg] at hz4
            exact Or.inl ⟨hz1, hz2, hz3, losslessCfg_inBound.mp hz4⟩
        · obtain ⟨hy1, hy2, hy3, hy4, hy5, hy6⟩ := hy
          rw [hcfg] at hy3
          have harith : q.1.z + ((g1.1 - q.1.z).toNat : Int) = g1.1 := by omega
          exact Or.inr (Or.inl ⟨hy1, hy2, losslessCfg_inBound.mp hy3, hy5, by omega⟩)
      · obtain ⟨hx1, hx2, hx3, hx4, hx5, hx6, hx7⟩ := hx
        rw [hcfg] at hx2
        have harith1 : q.1.y + ((g2.1 - q.1.y).toNat : Int) = g2.1 := by omega
        have harith2 : q.1.z + ((g1.1 - q.1.z).toNat : Int) = g1.1 := by omega
        exact Or.inr (Or.inr ⟨hx1, losslessCfg_inBound.mp hx2, hx4, by omega, hx6, by omega⟩)
    · have c1 := growZ_len t cfg q.1.x q.1.y q.1.z mm (by rw [hcfg]; rfl)
        (len - (q.1.z + 1)).toNat (q.1.z + 1) [] []
      rw [← hg1] at c1
      dsimp only
      exact c1
    · have c2 := growY_len t cfg q.1.x q.1.z (g1.1 - q.1.z).toNat q.1.y mm
        (by rw [hcfg]; rfl) (len - (q.1.y + 1)).toNat (q.1.y + 1) g1.2.1 g1.2.2
      rw [← hg2] at c2
      dsimp only
      exact c2

lemma setEmpty_cells (t : VoxelTree) (c : V3) :
    (setEmpty t c).cells = eraseKey t.cells c := rfl

lemma lookup_eraseKey (c v : V3) : ∀ (l : List (V3 × RGBA)),
    lookupColor (eraseKey l c) v = if v = c then none else lookupColor l v := by
  intro l
  induction l with
  | nil =>
    rw [eraseKey]
    by_cases hv : v = c
    · rw [if_pos hv]
      rfl
    · rw [if_neg hv]
  | cons q rest ih =>
    rw [eraseKey]
    by_cases hq : q.1 = c
    · rw [if_pos hq, ih]
      by_cases hv : v = c
      · rw [if_pos hv, if_pos hv]
      · rw [if_neg hv, if_neg hv, lookupColor, if_neg (fun he => hv (he.symm.trans hq))]
    · rw [if_neg hq, lookupColor]
      by_cases hqv : q.1 = v
      · rw [if_pos hqv, if_neg (fun he => hq (hqv.trans he)), lookupColor,
          if_pos hqv]
      · rw [if_neg hqv, ih]
        by_cases hv : v = c
        · rw [if_pos hv, if_pos hv]
        · rw [if_neg hv, if_neg hv, lookupColor, if_neg hqv]

lemma lookup_clearRow (v : V3) : ∀ (n : Nat) (t : VoxelTree) (sx sy sz : Int),
    lookupColor (clearRow t sx sy sz n).cells v =
      if v.x = sx ∧ v.y = sy ∧ sz ≤ v.z ∧ v.z < sz + (n : Int) then none
      else lookupColor t.cells v := by
  intro n
  induction n with
  | zero =>
    intro t sx sy sz
    rw [clearRow, if_neg (by omega)]
  | succ n ih =>
    intro t sx sy sz
    rw [clearRow, ih, setEmpty_cells, lookup_eraseKey]
    by_cases hfull : v.x = sx ∧ v.y = sy ∧ sz ≤ v.z ∧ v.z < sz + ((n + 1 : Nat) : Int)
    · rw [if_pos hfull]
      by_cases hz : v.z = sz
      · rw [if_neg (by omega), if_pos (by
          exact (V3.eq_mk_iff v sx sy sz).mpr ⟨hfull.1, hfull.2.1, hz⟩)]
      · rw [if_pos (by exact ⟨hfull.1, hfull.2.1, by omega, by omega⟩)]
    · rw [if_neg hfull,
        if_neg (fun hc => hfull ⟨hc.1, hc.2.1, by omega, by omega⟩),
        if_neg (fun he => hfull (by
          obtain ⟨he1, he2, he3⟩ := (V3.eq_mk_iff v sx sy sz).mp he
          exact ⟨he1, he2, by omega, by omega⟩))]

lemma lookup_clearRect (v : V3) : ∀ (m : Nat) (t : VoxelTree) (sx sy sz : Int) (n : Nat),
    lookupColor (clearRect t sx sy sz m n).cells v =
      if v.x = sx ∧ sy ≤ v.y ∧ v.y < sy + (m : Int) ∧ sz ≤ v.z ∧ v.z < sz + (n : Int) then none
      else lookupColor t.cells v := by
  intro m
  induction m with
  | zero =>
    intro t sx sy sz n
    rw [clearRect, if_neg (by omega)]
  | succ m ih =>
    intro t sx sy sz n
    rw [clearRect, ih, lookup_clearRow]
    by_cases hfull : v.x = sx ∧ sy ≤ v.y ∧ v.y < sy + ((m + 1 : Nat) : Int) ∧ sz ≤ v.z ∧
      v.z < sz + (n : Int)
    · rw [if_pos hfull]
      by_cases hy : v.y = sy
      · rw [if_neg (by omega), if_pos ⟨hfull.1, hy, hfull.2.2.2.1, hfull.2.2.2.2⟩]
      · rw [if_pos ⟨hfull.1, by omega, by omega, hfull.2.2.2.1, hfull.2.2.2.2⟩]
    · rw [if_neg hfull,
        if_neg (fun hc => hfull ⟨hc.1, by omega, by omega, hc.2.2.2.1, hc.2.2.2.2⟩),
        if_neg (fun hc => hfull ⟨hc.1, by omega, by omega, hc.2.2.1, hc.2.2.2⟩)]

lemma lookup_clearBox (v : V3) : ∀ (k : Nat) (t : VoxelTree) (sx sy sz : Int) (m n : Nat),
    lookupColor (clearBox t sx sy sz k m n).cells v =
      if sx ≤ v.x ∧ v.x < sx + (k : Int) ∧ sy ≤ v.y ∧ v.y < sy + (m : Int) ∧ sz ≤ v.z ∧
        v.z < sz + (n : Int) then none
      else lookupColor t.cells v := by
  intro k
  induction k with
  | zero =>
    intro t sx sy sz m n
    rw [clearBox, if_neg (by omega)]
  | succ k ih =>
    intro t sx sy sz m n
    rw [clearBox, ih, lookup_clearRect]
    by_cases hfull : sx ≤ v.x ∧ v.x < sx + ((k + 1 : Nat) : Int) ∧ sy ≤ v.y ∧
      v.y < sy + (m : Int) ∧ sz ≤ v.z ∧ v.z < sz + (n : Int)
    · rw [if_pos hfull]
      by_cases hx : v.x = sx
      · rw [if_neg (by omega), if_pos ⟨hx, hfull.2.2.1, hfull.2.2.2.1, hfull.2.2.2.2.1,
          hfull.2.2.2.2.2⟩]
      · rw [if_pos ⟨by omega, by omega, hfull.2.2.1, hfull.2.2.2.1, hfull.2.2.2.2.1,
          hfull.2.2.2.2.2⟩]
    · rw [if_neg hfull,
        if_neg (fun hc => hfull ⟨by omega, by omega, hc.2.2.1, hc.2.2.2.1, hc.2.2.2.2.1,
          hc.2.2.2.2.2⟩),
        if_neg (fun hc => hfull ⟨by omega, by omega, hc.2.1, hc.2.2.1, hc.2.2.2.1,
          hc.2.2.2.2⟩)]

lemma pass_shape_lookup (t : VoxelTree) (q : V3 × RGBA) {xp yp zp : Int}
    (hx : q.1.x + 1 ≤ xp) (hy : q.1.y + 1 ≤ yp) (hz : q.1.z + 1 ≤ zp) (v : V3) :
    lookupColor (clearBox t q.1.x q.1.y q.1.z (xp - q.1.x).toNat (yp - q.1.y).toNat
      (zp - q.1.z).toNat).cells v =
      if q.1.x ≤ v.x ∧ v.x < xp ∧ q.1.y ≤ v.y ∧ v.y < yp ∧ q.1.z ≤ v.z ∧ v.z < zp then none
      else lookupColor t.cells v := by
  rw [lookup_clearBox]
  refine if_congr ?_ rfl rfl
  omega

lemma lossyPass_lookup {t : VoxelTree} {mm : Int} {r : LossyRegion} {t2 : VoxelTree}
    (h : lossyPass t mm = some (r, t2)) (v : V3) :
    lookupColor t2.cells v =
      if r.x ≤ v.x ∧ v.x < r.xp ∧ r.y ≤ v.y ∧ v.y < r.yp ∧ r.z ≤ v.z ∧ v.z < r.zp then none
      else lookupColor t.cells v := by
  cases hg : getAny t with
  | none => rw [lossyPass, hg] at h; cases h
  | some q =>
    rw [lossyPass, hg] at h
    simp only [Option.some.injEq, Prod.mk.injEq] at h
    obtain ⟨hr, ht2⟩ := h
    subst hr
    subst ht2
    exact pass_shape_lookup t q (by apply growX_start_le) (by apply growY_start_le)
      (by apply growZ_start_le) v

lemma losslessPass_lookup {gammaFn : RGBA → RGBA} {matchFn : RGBA → Nat}
    {t : VoxelTree} {len mm : Int} {r : LosslessRegion} {pr : List V3} {t2 : VoxelTree}
    (h : losslessPass gammaFn matchFn t len mm = some (r, pr, t2)) (v : V3) :
    lookupColor t2.cells v =
      if r.x ≤ v.x ∧ v.x < r.xp ∧ r.y ≤ v.y ∧ v.y < r.yp ∧ r.z ≤ v.z ∧ v.z < r.zp then none
      else lookupColor t.cells v := by
  cases hg : getAny t with
  | none => rw [losslessPass, hg] at h; cases h
  | some q =>
    rw [losslessPass, hg] at h
    simp only [Option.some.injEq, Prod.mk.injEq] at h
    obtain ⟨hr, hpr, ht2⟩ := h
    subst hr
    subst ht2
    exact pass_shape_lookup t q (by apply growX_start_le) (by apply growY_start_le)
      (by apply growZ_start_le) v

lemma lossyRun_specAux (mm : Int) : ∀ (N : Nat) (t : VoxelTree), t.cells.length ≤ N →
    ((lossyRun mm t).2.cells = [] ∧
     (∀ v : V3, (∃ c, (v, c) ∈ t.cells) ↔ ∃ r ∈ (lossyRun mm t).1, r.inBox v) ∧
     (lossyRun mm t).1.Pairwise (fun a b => ∀ v, a.inBox v → ¬ b.inBox v) ∧
     (∀ r ∈ (lossyRun mm t).1,
        (r.x + 1 ≤ r.xp ∧ r.y + 1 ≤ r.yp ∧ r.z + 1 ≤ r.zp) ∧
        (r.xp - r.x ≤ max 1 mm ∧ r.yp - r.y ≤ max 1 mm ∧ r.zp - r.z ≤ max 1 mm) ∧
        (∀ v : V3, r.inBox v → ∃ c, lookupColor t.cells v = some c ∧ c ∈ r.colors))) := by
  intro N
  induction N with
  | zero =>
    intro t hlen
    have hcells : t.cells = [] := List.length_eq_zero.mp (by omega)
    have hp : lossyPass t mm = none := by
      rw [lossyPass, getAny, hcells]
      rfl
    have hrun : lossyRun mm t = ([], t) := by rw [lossyRun, hp]
    rw [hrun]
    refine ⟨hcells, ?_, List.Pairwise.nil, ?_⟩
    · intro v
      rw [hcells]
      simp
    · intro r hr
      cases hr
  | succ N ih =>
    intro t hlen
    cases hp : lossyPass t mm with
    | none =>
      have hcells : t.cells = [] := by
        cases hc : t.cells with
        | nil => rfl
        | cons q rest =>
          have hg : getAny t = some q := by rw [getAny, hc]; rfl
          rw [lossyPass, hg] at hp
          cases hp
      have hrun : lossyRun mm t = ([], t) := by rw [lossyRun, hp]
      rw [hrun]
      refine ⟨hcells, ?_, List.Pairwise.nil, ?_⟩
      · intro v
        rw [hcells]
        simp
      · intro r hr
        cases hr
    | some rt =>
      have hspec := lossyPass_spec hp
      obtain ⟨hmono, hbox, hclear, hcap⟩ := hspec
      have hlook := lossyPass_lookup hp
      have hshrink := lossyPass_shrink hp
      obtain ⟨ihA, ihB, ihC, ihD⟩ := ih rt.2 (by omega)
      have hrun : lossyRun mm t = (rt.1 :: (lossyRun mm rt.2).1, (lossyRun mm rt.2).2) := by
        rw [lossyRun, hp]
      rw [hrun]
      refine ⟨ihA, ?_, ?_, ?_⟩
      · intro v
        simp only [List.mem_cons]
        constructor
        · rintro ⟨c, hmem⟩
          by_cases hb : rt.1.inBox v
          · exact ⟨rt.1, Or.inl rfl, hb⟩
          · have hmem2 : (v, c) ∈ rt.2.cells := (hclear (v, c)).mpr ⟨hmem, hb⟩
            obtain ⟨r, hr, hrb⟩ := (ihB v).mp ⟨c, hmem2⟩
            exact ⟨r, Or.inr hr, hrb⟩
        · rintro ⟨r, hr | hr, hrb⟩
          · subst hr
            obtain ⟨c, hcell, hcm⟩ := hbox v hrb
            exact ⟨c, lookupColor_mem (getCell_eq_leaf_iff_lookup.mp hcell)⟩
          · obtain ⟨c, hc⟩ := (ihB v).mpr ⟨r, hr, hrb⟩
            exact ⟨c, ((hclear (v, c)).mp hc).1⟩
      · refine List.Pairwise.cons ?_ ihC
        intro b hb v hv1 hv2
        obtain ⟨c, hc⟩ := (ihB v).mpr ⟨b, hb, hv2⟩
        exact ((hclear (v, c)).mp hc).2 hv1
      · intro r hr
        rcases List.mem_cons.mp hr with rfl | hr2
        · refine ⟨hmono, hcap, ?_⟩
          intro v hv
          obtain ⟨c, hcell, hcm⟩ := hbox v hv
          exact ⟨c, getCell_eq_leaf_iff_lookup.mp hcell, hcm⟩
        · obtain ⟨hm2, hc2, hcol2⟩ := ihD r hr2
          refine ⟨hm2, hc2, ?_⟩
          intro v hv
          obtain ⟨c, hlv, hcm⟩ := hcol2 v hv
          have hl := hlook v
          rw [hlv] at hl
          split at hl
          · cases hl
          · exact ⟨c, hl.symm, hcm⟩

lemma lossyRun_spec (mm : Int) (t : VoxelTree) :
    (lossyRun mm t).2.cells = [] ∧
    (∀ v : V3, (∃ c, (v, c) ∈ t.cells) ↔ ∃ r ∈ (lossyRun mm t).1, r.inBox v) ∧
    (lossyRun mm t).1.Pairwise (fun a b => ∀ v, a.inBox v → ¬ b.inBox v) ∧
    (∀ r ∈ (lossyRun mm t).1,
      (r.x + 1 ≤ r.xp ∧ r.y + 1 ≤ r.yp ∧ r.z + 1 ≤ r.zp) ∧
      (r.xp - r.x ≤ max 1 mm ∧ r.yp - r.y ≤ max 1 mm ∧ r.zp - r.z ≤ max 1 mm) ∧
      (∀ v : V3, r.inBox v → ∃ c, lookupColor t.cells v = some c ∧ c ∈ r.colors)) :=
  lossyRun_specAux mm t.cells.length t (le_refl _)

lemma losslessRun_specAux (gammaFn : RGBA → RGBA) (matchFn : RGBA → Nat) (len mm : Int) :
    ∀ (N : Nat) (t : VoxelTree), t.cells.length ≤ N →
    ((losslessRun gammaFn matchFn len mm t).2.2.cells = [] ∧
     (∀ v : V3, (∃ c, (v, c) ∈ t.cells) ↔
       ∃ r ∈ (losslessRun gammaFn matchFn len mm t).1, r.inBox v) ∧
     (losslessRun gammaFn matchFn len mm t).1.Pairwise
       (fun a b => ∀ v, a.inBox v → ¬ b.inBox v) ∧
     (∀ r ∈ (losslessRun gammaFn matchFn len mm t).1,
        (r.x + 1 ≤ r.xp ∧ r.y + 1 ≤ r.yp ∧ r.z + 1 ≤ r.zp) ∧
        (r.xp - r.x ≤ max 1 mm ∧ r.yp - r.y ≤ max 1 mm ∧ r.zp - r.z ≤ max 1 mm) ∧
        (∀ v : V3, r.inBox v → ∃ c, lookupColor t.cells v = some c ∧
          matchFn (gammaFn c) = r.matched) ∧
        (r.zp ≤ max (r.z + 1) len ∧ r.yp ≤ max (r.y + 1) len)) ∧
     (∀ p : V3, p ∈ (losslessRun gammaFn matchFn len mm t).2.1 →
        ∃ r ∈ (losslessRun gammaFn matchFn len mm t).1,
          ((p.x = r.x ∧ p.y = r.y ∧ r.z + 1 ≤ p.z ∧ p.z < len) ∨
           (p.x = r.x ∧ r.y + 1 ≤ p.y ∧ p.y < len ∧ r.z ≤ p.z ∧ p.z < r.zp) ∨
           (r.x + 1 ≤ p.x ∧ p.x < len ∧ r.y ≤ p.y ∧ p.y < r.yp ∧ r.z ≤ p.z ∧ p.z < r.zp)))) := by
  intro N
  induction N with
  | zero =>
    intro t hlen
    have hcells : t.cells = [] := List.length_eq_zero.mp (by omega)
    have hp : losslessPass gammaFn matchFn t len mm = none := by
      rw [losslessPass, getAny, hcells]
      rfl
    have hrun : losslessRun gammaFn matchFn len mm t = ([], [], t) := by rw [losslessRun, hp]
    rw [hrun]
    refine ⟨hcells, ?_, List.Pairwise.nil, ?_, ?_⟩
    · intro v
      rw [hcells]
      simp
    · intro r hr
      cases hr
    · intro p hp2
      cases hp2
  | succ N ih =>
    intro t hlen
    cases hp : losslessPass gammaFn matchFn t len mm with
    | none =>
      have hcells : t.cells = [] := by
        cases hc : t.cells with
        | nil => rfl
        | cons q rest =>
          have hg : getAny t = some q := by rw [getAny, hc]; rfl
          rw [losslessPass, hg] at hp
          cases hp
      have hrun : losslessRun gammaFn matchFn len mm t = ([], [], t) := by
        rw [losslessRun, hp]
      rw [hrun]
      refine ⟨hcells, ?_, List.Pairwise.nil, ?_, ?_⟩
      · intro v
        rw [hcells]
        simp
      · intro r hr
        cases hr
      · intro p hp2
        cases hp2
    | some rt =>
      have hspec := losslessPass_spec hp
      obtain ⟨hmono, hbox, hclear, hcap, hprobe, hlenb⟩ := hspec
      have hlook := losslessPass_lookup hp
      have hshrink : rt.2.2.cells.length < t.cells.length := losslessPass_shrink hp
      obtain ⟨ihA, ihB, ihC, ihD, ihE⟩ := ih rt.2.2 (by omega)
      have hrun : losslessRun gammaFn matchFn len mm t =
          (rt.1 :: (losslessRun gammaFn matchFn len mm rt.2.2).1,
           rt.2.1 ++ (losslessRun gammaFn matchFn len mm rt.2.2).2.1,
           (losslessRun gammaFn matchFn len mm rt.2.2).2.2) := by
        rw [losslessRun, hp]
      rw [hrun]
      refine ⟨ihA, ?_, ?_, ?_, ?_⟩
      · intro v
        simp only [List.mem_cons]
        constructor
        · rintro ⟨c, hmem⟩
          by_cases hb : rt.1.inBox v
          · exact ⟨rt.1, Or.inl rfl, hb⟩
          · have hmem2 : (v, c) ∈ rt.2.2.cells := (hclear (v, c)).mpr ⟨hmem, hb⟩
            obtain ⟨r, hr, hrb⟩ := (ihB v).mp ⟨c, hmem2⟩
            exact ⟨r, Or.inr hr, hrb⟩
        · rintro ⟨r, hr | hr, hrb⟩
          · subst hr
            obtain ⟨c, hcell, hcm⟩ := hbox v hrb
            exact ⟨c, lookupColor_mem (getCell_eq_leaf_iff_lookup.mp hcell)⟩
          · obtain ⟨c, hc⟩ := (ihB v).mpr ⟨r, hr, hrb⟩
            exact ⟨c, ((hclear (v, c)).mp hc).1⟩
      · refine List.Pairwise.cons ?_ ihC
        intro b hb v hv1 hv2
        obtain ⟨c, hc⟩ := (ihB v).mpr ⟨b, hb, hv2⟩
        exact ((hclear (v, c)).mp hc).2 hv1
      · intro r hr
        rcases List.mem_cons.mp hr with rfl | hr2
        · refine ⟨hmono, hcap, ?_, hlenb⟩
          intro v hv
          obtain ⟨c, hcell, hcm⟩ := hbox v hv
          exact ⟨c, getCell_eq_leaf_iff_lookup.mp hcell, hcm⟩
        · obtain ⟨hm2, hc2, hcol2, hl2⟩ := ihD r hr2
          refine ⟨hm2, hc2, ?_, hl2⟩
          intro v hv
          obtain ⟨c, hlv, hcm⟩ := hcol2 v hv
          have hl := hlook v
          rw [hlv] at hl
          split at hl
          · cases hl
          · exact ⟨c, hl.symm, hcm⟩
      · intro p hp2
        rcases List.mem_append.mp hp2 with hin | hin
        · exact ⟨rt.1, List.mem_cons_self _ _, hprobe p hin⟩
        · obtain ⟨r, hr, hfact⟩ := ihE p hin
          exact ⟨r, List.mem_cons_of_mem _ hr, hfact⟩

lemma losslessRun_spec (gammaFn : RGBA → RGBA) (matchFn : RGBA → Nat) (len mm : Int)
    (t : VoxelTree) :
    ((losslessRun gammaFn matchFn len mm t).2.2.cells = [] ∧
     (∀ v : V3, (∃ c, (v, c) ∈ t.cells) ↔
       ∃ r ∈ (losslessRun gammaFn matchFn len mm t).1, r.inBox v) ∧
     (losslessRun gammaFn matchFn len mm t).1.Pairwise
       (fun a b => ∀ v, a.inBox v → ¬ b.inBox v) ∧
     (∀ r ∈ (losslessRun gammaFn matchFn len mm t).1,
        (r.x + 1 ≤ r.xp ∧ r.y + 1 ≤ r.yp ∧ r.z + 1 ≤ r.zp) ∧
        (r.xp - r.x ≤ max 1 mm ∧ r.yp - r.y ≤ max 1 mm ∧ r.zp - r.z ≤ max 1 mm) ∧
        (∀ v : V3, r.inBox v → ∃ c, lookupColor t.cells v = some c ∧
          matchFn (gammaFn c) = r.matched) ∧
        (r.zp ≤ max (r.z + 1) len ∧ r.yp ≤ max (r.y + 1) len)) ∧
     (∀ p : V3, p ∈ (losslessRun gammaFn matchFn len mm t).2.1 →
        ∃ r ∈ (losslessRun gammaFn matchFn len mm t).1,
          ((p.x = r.x ∧ p.y = r.y ∧ r.z + 1 ≤ p.z ∧ p.z < len) ∨
           (p.x = r.x ∧ r.y + 1 ≤ p.y ∧ p.y < len ∧ r.z ≤ p.z ∧ p.z < r.zp) ∨
           (r.x + 1 ≤ p.x ∧ p.x < len ∧ r.y ≤ p.y ∧ p.y < r.yp ∧ r.z ≤ p.z ∧ p.z < r.zp)))) :=
  losslessRun_specAux gammaFn matchFn len mm t.cells.length t (le_refl _)

lemma getCell_of_cells_nil {t : VoxelTree} (h : t.cells = []) (v : V3) :
    getCell t v = TreeBody.Empty := by
  rw [getCell, h, lookupColor]

lemma lossyRun_nil (mm : Int) (S : Nat) :
    lossyRun mm ⟨S, []⟩ = ([], ⟨S, []⟩) := by
  have hp : lossyPass ⟨S, []⟩ mm = none := by rw [lossyPass, getAny]; rfl
  rw [lossyRun, hp]

lemma losslessRun_nil (gammaFn : RGBA → RGBA) (matchFn : RGBA → Nat) (len mm : Int) (S : Nat) :
    losslessRun gammaFn matchFn len mm ⟨S, []⟩ = ([], [], ⟨S, []⟩) := by
  have hp : losslessPass gammaFn matchFn ⟨S, []⟩ len mm = none := by
    rw [losslessPass, getAny]
    rfl
  rw [losslessRun, hp]

/-- C1: after a complete run of the merger in either mode, the volume holds
zero occupied (`Leaf`) cells, the emitted regions' boxes are pairwise
disjoint, and their union is exactly the set of cells occupied before
merging started: no cell double-counted, none dropped. -/
theorem merger_coverage_exact (mm : Int) (t : VoxelTree)
    (gammaFn : RGBA → RGBA) (matchFn : RGBA → Nat) (len : Int) :
    ((lossyRun mm t).2.cells = [] ∧
     (∀ v : V3, getCell (lossyRun mm t).2 v = TreeBody.Empty) ∧
     (∀ v : V3, getCell t v ≠ TreeBody.Empty ↔ ∃ r ∈ (lossyRun mm t).1, r.inBox v) ∧
     (lossyRun mm t).1.Pairwise (fun a b => ∀ v, a.inBox v → ¬ b.inBox v)) ∧
    ((losslessRun gammaFn matchFn len mm t).2.2.cells = [] ∧
     (∀ v : V3, getCell (losslessRun gammaFn matchFn len mm t).2.2 v = TreeBody.Empty) ∧
     (∀ v : V3, getCell t v ≠ TreeBody.Empty ↔
       ∃ r ∈ (losslessRun gammaFn matchFn len mm t).1, r.inBox v) ∧
     (losslessRun gammaFn matchFn len mm t).1.Pairwise
       (fun a b => ∀ v, a.inBox v → ¬ b.inBox v)) := by
  obtain ⟨hA, hB, hC, _⟩ := lossyRun_spec mm t
  obtain ⟨hA2, hB2, hC2, _, _⟩ := losslessRun_spec gammaFn matchFn len mm t
  refine ⟨⟨hA, fun v => getCell_of_cells_nil hA v, fun v => ?_, hC⟩,
    ⟨hA2, fun v => getCell_of_cells_nil hA2 v, fun v => ?_, hC2⟩⟩
  · rw [getCell_ne_empty_iff]
    exact hB v
  · rw [getCell_ne_empty_iff]
    exact hB2 v

/-- C3: each merge pass strictly shrinks the occupied-cell count and clears
every cell of its finalized region (seed included) to `Empty`; the outer
loop stops exactly when no occupied cell remains; an empty volume yields an
empty brick list in both modes with no error. -/
theorem merger_terminates (mm : Int) (t : VoxelTree)
    (gammaFn : RGBA → RGBA) (matchFn : RGBA → Nat) (len : Int)
    (avgMatch : List RGBA → Nat) (avgRaw : List RGBA → RGBA)
    (palette : List Color) (opts : Obj2Brs) (budget : Int) (S : Nat) :
    (∀ (r : LossyRegion) (t2 : VoxelTree), lossyPass t mm = some (r, t2) →
      t2.cells.length < t.cells.length ∧ r.inBox ⟨r.x, r.y, r.z⟩ ∧
      (∀ v, r.inBox v → getCell t2 v = TreeBody.Empty)) ∧
    (∀ (r : LosslessRegion) (pr : List V3) (t2 : VoxelTree),
      losslessPass gammaFn matchFn t len mm = some (r, pr, t2) →
      t2.cells.length < t.cells.length ∧ r.inBox ⟨r.x, r.y, r.z⟩ ∧
      (∀ v, r.inBox v → getCell t2 v = TreeBody.Empty)) ∧
    (lossyPass t mm = none ↔ t.cells = []) ∧
    (losslessPass gammaFn matchFn t len mm = none ↔ t.cells = []) ∧
    (lossyRun mm t).2.cells = [] ∧
    (losslessRun gammaFn matchFn len mm t).2.2.cells = [] ∧
    (simplifyLossy avgMatch avgRaw ⟨S, []⟩ palette opts budget).1 = [] ∧
    (simplifyLossless gammaFn matchFn ⟨S, []⟩ palette opts budget).1 = [] := by
  refine ⟨?_, ?_, ?_, ?_, (lossyRun_spec mm t).1, (losslessRun_spec gammaFn matchFn len mm t).1,
    ?_, ?_⟩
  · intro r t2 h
    obtain ⟨hmono, _, hclear, _⟩ := lossyPass_spec h
    have hlook := lossyPass_lookup h
    refine ⟨lossyPass_shrink h, ?_, ?_⟩
    · show r.x ≤ r.x ∧ r.x < r.xp ∧ r.y ≤ r.y ∧ r.y < r.yp ∧ r.z ≤ r.z ∧ r.z < r.zp
      omega
    · intro v hv
      have hv2 : r.x ≤ v.x ∧ v.x < r.xp ∧ r.y ≤ v.y ∧ v.y < r.yp ∧ r.z ≤ v.z ∧ v.z < r.zp := hv
      have hl := hlook v
      rw [if_pos hv2] at hl
      rw [getCell, hl]
  · intro r pr t2 h
    obtain ⟨hmono, _, hclear, _, _, _⟩ := losslessPass_spec h
    have hlook := losslessPass_lookup h
    refine ⟨losslessPass_shrink h, ?_, ?_⟩
    · show r.x ≤ r.x ∧ r.x < r.xp ∧ r.y ≤ r.y ∧ r.y < r.yp ∧ r.z ≤ r.z ∧ r.z < r.zp
      omega
    · intro v hv
      have hv2 : r.x ≤ v.x ∧ v.x < r.xp ∧ r.y ≤ v.y ∧ v.y < r.yp ∧ r.z ≤ v.z ∧ v.z < r.zp := hv
      have hl := hlook v
      rw [if_pos hv2] at hl
      rw [getCell, hl]
  · constructor
    · intro h
      cases hc : t.cells with
      | nil => rfl
      | cons q rest =>
        have hg : getAny t = some q := by rw [getAny, hc]; rfl
        rw [lossyPass, hg] at h
        cases h
    · intro h
      rw [lossyPass, getAny, h]
      rfl
  · constructor
    · intro h
      cases hc : t.cells with
      | nil => rfl
      | cons q rest =>
        have hg : getAny t = some q := by rw [getAny, hc]; rfl
        rw [losslessPass, hg] at h
        cases h
    · intro h
      rw [losslessPass, getAny, h]
      rfl
  · rw [simplifyLossy, lossyRun_nil]
    rfl
  · rw [simplifyLossless, losslessRun_nil]
    rfl

lemma maxScaleOf_not_micro {opts : Obj2Brs} (h : opts.bricktype ≠ BrickType.Microbricks) :
    maxScaleOf opts = 5 := by
  rw [maxScaleOf, scalesOf, if_neg h]
  decide

lemma tdiv_500_pos {ms : Int} (h1 : 1 ≤ ms) (h2 : ms ≤ 500) : 1 ≤ Int.tdiv 500 ms := by
  rw [Int.tdiv_eq_ediv (by norm_num) (by omega), Int.le_ediv_iff_mul_le (by omega)]
  omega

/-- C4: in lossy mode with merge budget 500, every emitted region's extent
along each axis is at most `500 / max(scale.x, scale.y, scale.z)`
(truncating division, as Rust's `/` on `isize`); in particular with per-axis
scales `(5,5,2)` (any non-microbrick family) no region exceeds 100 voxels
along X or Y, nor 250 along Z. -/
theorem lossy_merge_cap (opts : Obj2Brs) (t : VoxelTree)
    (h1 : 1 ≤ maxScaleOf opts) (h2 : maxScaleOf opts ≤ 500) :
    ∀ r ∈ (lossyRun (Int.tdiv 500 (maxScaleOf opts)) t).1,
      (r.xp - r.x ≤ Int.tdiv 500 (maxScaleOf opts) ∧
       r.yp - r.y ≤ Int.tdiv 500 (maxScaleOf opts) ∧
       r.zp - r.z ≤ Int.tdiv 500 (maxScaleOf opts)) ∧
      (opts.bricktype ≠ BrickType.Microbricks →
        r.xp - r.x ≤ 100 ∧ r.yp - r.y ≤ 100 ∧ r.zp - r.z ≤ 250) := by
  intro r hr
  obtain ⟨_, _, _, hD⟩ := lossyRun_spec (Int.tdiv 500 (maxScaleOf opts)) t
  obtain ⟨hmono, hcap, _⟩ := hD r hr
  rw [max_eq_right (tdiv_500_pos h1 h2)] at hcap
  refine ⟨hcap, ?_⟩
  intro hbt
  rw [maxScaleOf_not_micro hbt] at hcap
  have h100 : Int.tdiv 500 5 = 100 := by decide
  rw [h100] at hcap
  omega

/-- C10: the per-axis merge cap applies in lossless mode as well: with
merge budget 500 every region emitted by `simplify_lossless` has extent at
most `500 / max(scale.x, scale.y, scale.z)` along each axis (the lossless
loops repeat the `< max_merge` guard of the lossy ones, lines 196, 211,
236), in addition to the volume-edge bound. -/
theorem lossless_merge_cap (gammaFn : RGBA → RGBA) (matchFn : RGBA → Nat)
    (opts : Obj2Brs) (t : VoxelTree)
    (h1 : 1 ≤ maxScaleOf opts) (h2 : maxScaleOf opts ≤ 500) :
    ∀ r ∈ (losslessRun gammaFn matchFn ((2 : Int) ^ t.size + 1)
        (Int.tdiv 500 (maxScaleOf opts)) t).1,
      r.xp - r.x ≤ Int.tdiv 500 (maxScaleOf opts) ∧
      r.yp - r.y ≤ Int.tdiv 500 (maxScaleOf opts) ∧
      r.zp - r.z ≤ Int.tdiv 500 (maxScaleOf opts) := by
  intro r hr
  obtain ⟨_, _, _, hD, _⟩ := losslessRun_spec gammaFn matchFn ((2 : Int) ^ t.size + 1)
    (Int.tdiv 500 (maxScaleOf opts)) t
  obtain ⟨hmono, hcap, _⟩ := hD r hr
  rw [max_eq_right (tdiv_500_pos h1 h2)] at hcap
  exact hcap

/-- C2: in lossless mode a candidate cell is accepted only if palette-
matching its own gamma-corrected color yields the seed's matched index, so
every cell of an emitted lossless region palette-matches to the region's
matched color, and no region contains cells of two different palette
indices. -/
theorem lossless_region_color_uniform (gammaFn : RGBA → RGBA) (matchFn : RGBA → Nat)
    (len mm : Int) (t : VoxelTree) :
    ∀ r ∈ (losslessRun gammaFn matchFn len mm t).1,
      (∀ v : V3, r.inBox v → ∃ c, lookupColor t.cells v = some c ∧
        matchFn (gammaFn c) = r.matched) ∧
      (∀ (v1 v2 : V3) (c1 c2 : RGBA), r.inBox v1 → r.inBox v2 →
        lookupColor t.cells v1 = some c1 → lookupColor t.cells v2 = some c2 →
        matchFn (gammaFn c1) = matchFn (gammaFn c2)) := by
  intro r hr
  obtain ⟨_, _, _, hD, _⟩ := losslessRun_spec gammaFn matchFn len mm t
  obtain ⟨_, _, hcol, _⟩ := hD r hr
  refine ⟨hcol, ?_⟩
  intro v1 v2 c1 c2 h1 h2 hl1 hl2
  obtain ⟨d1, hld1, hm1⟩ := hcol v1 h1
  obtain ⟨d2, hld2, hm2⟩ := hcol v2 h2
  rw [hl1] at hld1
  rw [hl2] at hld2
  injection hld1 with e1
  injection hld2 with e2
  rw [← e1] at hm1
  rw [← e2] at hm2
  exact hm1.trans hm2.symm

/-- C5 (amended): the colors reduced by the HSV average for an emitted
lossy region include the color of every cell inside the finalized box, but
the list may additionally contain colors of occupied cells probed on
rejected slab extensions, which lie outside the final box (each probed leaf
color is pushed before the slab's acceptance is decided). -/
theorem lossy_box_colors_collected (mm : Int) (t : VoxelTree) :
    ∀ r ∈ (lossyRun mm t).1, ∀ v : V3, r.inBox v →
      ∃ c, lookupColor t.cells v = some c ∧ c ∈ r.colors := by
  intro r hr
  exact ((lossyRun_spec mm t).2.2.2 r hr).2.2

/-- C5 counterexample: on a volume whose cells are `(0,0,0) ↦ A`,
`(0,0,1) ↦ A`, `(0,1,0) ↦ B` the first lossy region's box is
`[0,1)×[0,1)×[0,2)` — both its cells have color `A` — yet the collected
color list is `[A, A, B]`: `B` was pushed while probing the rejected
`y`-slab, so the multiset is not the multiset of the box's cell colors. -/
theorem lossy_colors_outside_box_counterexample :
    (⟨0, 0, 0, 1, 1, 2, [⟨10, 10, 10, 255⟩, ⟨10, 10, 10, 255⟩, ⟨200, 0, 0, 255⟩]⟩ : LossyRegion) ∈
      (lossyRun 100 ⟨2, [(⟨0, 0, 0⟩, ⟨10, 10, 10, 255⟩), (⟨0, 0, 1⟩, ⟨10, 10, 10, 255⟩),
        (⟨0, 1, 0⟩, ⟨200, 0, 0, 255⟩)]⟩).1 ∧
    (⟨200, 0, 0, 255⟩ : RGBA) ∈
      [(⟨10, 10, 10, 255⟩ : RGBA), ⟨10, 10, 10, 255⟩, ⟨200, 0, 0, 255⟩] ∧
    ¬ LossyRegion.inBox ⟨0, 0, 0, 1, 1, 2, [⟨10, 10, 10, 255⟩, ⟨10, 10, 10, 255⟩,
      ⟨200, 0, 0, 255⟩]⟩ ⟨0, 1, 0⟩ ∧
    lookupColor [(⟨0, 0, 0⟩, ⟨10, 10, 10, 255⟩), (⟨0, 0, 1⟩, ⟨10, 10, 10, 255⟩),
      (⟨0, 1, 0⟩, ⟨200, 0, 0, 255⟩)] ⟨0, 0, 0⟩ = some ⟨10, 10, 10, 255⟩ ∧
    lookupColor [(⟨0, 0, 0⟩, ⟨10, 10, 10, 255⟩), (⟨0, 0, 1⟩, ⟨10, 10, 10, 255⟩),
      (⟨0, 1, 0⟩, ⟨200, 0, 0, 255⟩)] ⟨0, 0, 1⟩ = some ⟨10, 10, 10, 255⟩ ∧
    (⟨200, 0, 0, 255⟩ : RGBA) ≠ ⟨10, 10, 10, 255⟩ := by
  have hp0 : lossyPass ⟨2, [(⟨0, 0, 0⟩, ⟨10, 10, 10, 255⟩), (⟨0, 0, 1⟩, ⟨10, 10, 10, 255⟩),
      (⟨0, 1, 0⟩, ⟨200, 0, 0, 255⟩)]⟩ 100 =
      some (⟨0, 0, 0, 1, 1, 2, [⟨10, 10, 10, 255⟩, ⟨10, 10, 10, 255⟩, ⟨200, 0, 0, 255⟩]⟩,
        ⟨2, [(⟨0, 1, 0⟩, ⟨200, 0, 0, 255⟩)]⟩) := by decide
  refine ⟨?_, by decide, by decide, by decide, by decide, by decide⟩
  rw [lossyRun, hp0]
  exact List.mem_cons_self _ _

/-- C6 (amended): assuming every occupied cell lies inside `[0, 2^S)^3`,
every coordinate probed by `simplify_lossless` has each component at most
`2^S`; a component *equal to* `2^S` does occur (the scan bound is
`len = 2^S + 1`, lines 149-150), so "strictly less than `2^S`" does not
hold. -/
theorem lossless_probe_bound (gammaFn : RGBA → RGBA) (matchFn : RGBA → Nat)
    (mm : Int) (t : VoxelTree)
    (hrange : ∀ p ∈ t.cells, 0 ≤ p.1.x ∧ p.1.x < (2 : Int) ^ t.size ∧
      0 ≤ p.1.y ∧ p.1.y < (2 : Int) ^ t.size ∧ 0 ≤ p.1.z ∧ p.1.z < (2 : Int) ^ t.size) :
    ∀ p ∈ (losslessRun gammaFn matchFn ((2 : Int) ^ t.size + 1) mm t).2.1,
      p.x ≤ (2 : Int) ^ t.size ∧ p.y ≤ (2 : Int) ^ t.size ∧ p.z ≤ (2 : Int) ^ t.size := by
  obtain ⟨_, hB, _, hD, hE⟩ := losslessRun_spec gammaFn matchFn ((2 : Int) ^ t.size + 1) mm t
  intro p hp
  obtain ⟨r, hr, hfact⟩ := hE p hp
  obtain ⟨hmono, _, hcol, hzl, hyl⟩ := hD r hr
  have hseedbox : r.inBox ⟨r.x, r.y, r.z⟩ := by
    show r.x ≤ r.x ∧ r.x < r.xp ∧ r.y ≤ r.y ∧ r.y < r.yp ∧ r.z ≤ r.z ∧ r.z < r.zp
    omega
  obtain ⟨c, hlc, _⟩ := hcol ⟨r.x, r.y, r.z⟩ hseedbox
  have hmem := lookupColor_mem hlc
  have hrr := hrange _ hmem
  have hb1 : 0 ≤ r.x := hrr.1
  have hb2 : r.x < (2 : Int) ^ t.size := hrr.2.1
  have hb3 : 0 ≤ r.y := hrr.2.2.1
  have hb4 : r.y < (2 : Int) ^ t.size := hrr.2.2.2.1
  have hb5 : 0 ≤ r.z := hrr.2.2.2.2.1
  have hb6 : r.z < (2 : Int) ^ t.size := hrr.2.2.2.2.2
  have hz2 : r.zp ≤ (2 : Int) ^ t.size + 1 := by
    rw [max_eq_right (by omega)] at hzl
    exact hzl
  have hy2 : r.yp ≤ (2 : Int) ^ t.size + 1 := by
    rw [max_eq_right (by omega)] at hyl
    exact hyl
  rcases hfact with h | h | h <;> omega

/-- C6 counterexample: with `S = 0` (side length `2^0 = 1`) and a single
occupied in-range cell at the origin, `simplify_lossless` probes the
coordinate `(0,0,1)` whose third component equals `2^S`: probes are not
strictly below the volume's side length. -/
theorem lossless_probe_at_edge_counterexample :
    (⟨0, 0, 1⟩ : V3) ∈ (losslessRun (fun c => c) (fun c => c.r)
      ((2 : Int) ^ (VoxelTree.mk 0 [(⟨0, 0, 0⟩, ⟨10, 20, 30, 255⟩)]).size + 1)
      (Int.tdiv 500 5) ⟨0, [(⟨0, 0, 0⟩, ⟨10, 20, 30, 255⟩)]⟩).2.1 ∧
    ¬ ((⟨0, 0, 1⟩ : V3).z < (2 : Int) ^ (VoxelTree.mk 0 [(⟨0, 0, 0⟩, ⟨10, 20, 30, 255⟩)]).size) ∧
    (∀ p ∈ (VoxelTree.mk 0 [(⟨0, 0, 0⟩, ⟨10, 20, 30, 255⟩)]).cells,
      0 ≤ p.1.x ∧ p.1.x < (2 : Int) ^ (0 : Nat) ∧ 0 ≤ p.1.y ∧ p.1.y < (2 : Int) ^ (0 : Nat) ∧
      0 ≤ p.1.z ∧ p.1.z < (2 : Int) ^ (0 : Nat)) := by
  have hp0 : losslessPass (fun c => c) (fun c : RGBA => c.r)
      ⟨0, [(⟨0, 0, 0⟩, ⟨10, 20, 30, 255⟩)]⟩
      ((2 : Int) ^ (VoxelTree.mk 0 [(⟨0, 0, 0⟩, ⟨10, 20, 30, 255⟩)]).size + 1)
      (Int.tdiv 500 5) =
      some (⟨0, 0, 0, 1, 1, 1, 10, ⟨10, 20, 30, 255⟩⟩,
        [⟨0, 0, 1⟩, ⟨0, 1, 0⟩, ⟨1, 0, 0⟩], ⟨0, []⟩) := by decide
  have hp1 : losslessPass (fun c => c) (fun c : RGBA => c.r) ⟨0, []⟩
      ((2 : Int) ^ (VoxelTree.mk 0 [(⟨0, 0, 0⟩, ⟨10, 20, 30, 255⟩)]).size + 1)
      (Int.tdiv 500 5) = none := by decide
  have hrun : losslessRun (fun c => c) (fun c : RGBA => c.r)
      ((2 : Int) ^ (VoxelTree.mk 0 [(⟨0, 0, 0⟩, ⟨10, 20, 30, 255⟩)]).size + 1)
      (Int.tdiv 500 5) ⟨0, [(⟨0, 0, 0⟩, ⟨10, 20, 30, 255⟩)]⟩ =
      ([⟨0, 0, 0, 1, 1, 1, 10, ⟨10, 20, 30, 255⟩⟩],
       [⟨0, 0, 1⟩, ⟨0, 1, 0⟩, ⟨1, 0, 0⟩], ⟨0, []⟩) := by
    rw [losslessRun.eq_def, hp0]
    dsimp only
    rw [losslessRun.eq_def, hp1]
    rfl
  refine ⟨?_, by decide, by decide⟩
  rw [hrun]
  decide

/-- C7: for a merged region handed to `create_brick`, the emitted brick's
size per axis is the componentwise product `scale ⊙ extent` and its
position per axis is `scale ⊙ extent + 2·scale ⊙ origin` (the `u16`/`i32`
casts of lines 308-318 are the identity within their ranges). -/
theorem create_brick_size_position (opts : Obj2Brs) (palette : List Color)
    (scale size pos : Int × Int × Int) (color : BrickColor)
    (hsize : 0 ≤ scale.1 * size.1 ∧ scale.1 * size.1 < 65536 ∧
      0 ≤ scale.2.1 * size.2.1 ∧ scale.2.1 * size.2.1 < 65536 ∧
      0 ≤ scale.2.2 * size.2.2 ∧ scale.2.2 * size.2.2 < 65536)
    (hpos : -2147483648 ≤ scale.1 * size.1 + 2 * scale.1 * pos.1 ∧
      scale.1 * size.1 + 2 * scale.1 * pos.1 < 2147483648 ∧
      -2147483648 ≤ scale.2.1 * size.2.1 + 2 * scale.2.1 * pos.2.1 ∧
      scale.2.1 * size.2.1 + 2 * scale.2.1 * pos.2.1 < 2147483648 ∧
      -2147483648 ≤ scale.2.2 * size.2.2 + 2 * scale.2.2 * pos.2.2 ∧
      scale.2.2 * size.2.2 + 2 * scale.2.2 * pos.2.2 < 2147483648) :
    (((createBrick opts palette scale size pos color).size.x : Int) = scale.1 * size.1 ∧
     ((createBrick opts palette scale size pos color).size.y : Int) = scale.2.1 * size.2.1 ∧
     ((createBrick opts palette scale size pos color).size.z : Int) = scale.2.2 * size.2.2) ∧
    ((createBrick opts palette scale size pos color).position.x =
       scale.1 * size.1 + 2 * scale.1 * pos.1 ∧
     (createBrick opts palette scale size pos color).position.y =
       scale.2.1 * size.2.1 + 2 * scale.2.1 * pos.2.1 ∧
     (createBrick opts palette scale size pos color).position.z =
       scale.2.2 * size.2.2 + 2 * scale.2.2 * pos.2.2) := by
  obtain ⟨h1, h2, h3, h4, h5, h6⟩ := hsize
  obtain ⟨g1, g2, g3, g4, g5, g6⟩ := hpos
  refine ⟨⟨?_, ?_, ?_⟩, ?_, ?_, ?_⟩
  · show ((toU16 (scale.1 * size.1) : Nat) : Int) = scale.1 * size.1
    rw [toU16]
    omega
  · show ((toU16 (scale.2.1 * size.2.1) : Nat) : Int) = scale.2.1 * size.2.1
    rw [toU16]
    omega
  · show ((toU16 (scale.2.2 * size.2.2) : Nat) : Int) = scale.2.2 * size.2.2
    rw [toU16]
    omega
  · show toI32 (scale.1 * size.1 + 2 * scale.1 * pos.1) = _
    rw [toI32]
    omega
  · show toI32 (scale.2.1 * size.2.1 + 2 * scale.2.1 * pos.2.1) = _
    rw [toI32]
    omega
  · show toI32 (scale.2.2 * size.2.2 + 2 * scale.2.2 * pos.2.2) = _
    rw [toI32]
    omega

/-- C8: when a brick's color is a palette index, `create_brick` resolves it
to the palette entry at that index when in range and otherwise falls back
to white `(255,255,255)` instead of failing, for every index value. -/
theorem create_brick_palette_clamp (opts : Obj2Brs) (palette : List Color)
    (scale size pos : Int × Int × Int) (idx : Nat) :
    (createBrick opts palette scale size pos (BrickColor.Index idx)).color =
      (palette[idx]?.getD ⟨255, 255, 255⟩) := by
  show (if h : idx < palette.length then palette.get ⟨idx, h⟩ else ⟨255, 255, 255⟩) = _
  by_cases h : idx < palette.length
  · rw [dif_pos h, List.getElem?_eq_getElem h]
    rfl
  · rw [dif_neg h, List.getElem?_eq_none (by omega)]
    rfl

lemma minZRow_le_init : ∀ (m : List Vtx) (a : ℚ), minZRow a m ≤ a := by
  intro m
  induction m with
  | nil => intro a; exact le_refl _
  | cons v vs ih =>
    intro a
    rw [minZRow] at *
    exact le_trans (ih (min a v.2.2)) (min_le_left _ _)

lemma minZRow_le_mem : ∀ (m : List Vtx) (a : ℚ) (v : Vtx), v ∈ m → minZRow a m ≤ v.2.2 := by
  intro m
  induction m with
  | nil => intro a v h; cases h
  | cons w ws ih =>
    intro a v h
    rcases List.mem_cons.mp h with rfl | h2
    · rw [minZRow]
      exact le_trans (minZRow_le_init ws (min a v.2.2)) (min_le_right _ _)
    · rw [minZRow]
      exact ih (min a w.2.2) v h2

lemma minZAll_le_init : ∀ (ms : List (List Vtx)) (a : ℚ), minZAll a ms ≤ a := by
  intro ms
  induction ms with
  | nil => intro a; exact le_refl _
  | cons m0 rest ih =>
    intro a
    rw [minZAll] at *
    exact le_trans (ih (minZRow a m0)) (minZRow_le_init m0 a)

lemma minZAll_le_mem : ∀ (ms : List (List Vtx)) (a : ℚ) (m : List Vtx) (v : Vtx),
    m ∈ ms → v ∈ m → minZAll a ms ≤ v.2.2 := by
  intro ms
  induction ms with
  | nil => intro a m v h; cases h
  | cons m0 rest ih =>
    intro a m v hm hv
    rcases List.mem_cons.mp hm with rfl | hm2
    · rw [minZAll]
      exact le_trans (minZAll_le_init rest (minZRow a m)) (minZRow_le_mem m a v hv)
    · rw [minZAll]
      exact ih (minZRow a m0) m v hm2 hv

/-- C9 (amended): after `scale_models` returns, provided the first model
has at least one vertex, every vertex's *third* component is non-negative
(the source raises the mesh only vertically: `p[v+2] += z_offset`,
`main.rs` lines 773-795); the first and second components are never
translated and may remain negative. -/
lemma minShift_nonneg (L : List (List Vtx)) (a : ℚ) :
    ∀ m ∈ (if minZAll a L < 0 then
        L.map (List.map (fun v => (v.1, v.2.1, v.2.2 + -(minZAll a L)))) else L),
      ∀ v ∈ m, 0 ≤ v.2.2 := by
  intro m hm v hv
  split at hm
  · rename_i hneg
    obtain ⟨m2, hm2, rfl⟩ := List.mem_map.mp hm
    obtain ⟨w, hw, rfl⟩ := List.mem_map.mp hv
    have hle := minZAll_le_mem L a m2 w hm2 hw
    dsimp only
    linarith
  · rename_i hneg
    have hle := minZAll_le_mem L a m v hm hv
    linarith

theorem scale_models_z_nonneg (v0 : Vtx) (vs : List Vtx) (ms : List (List Vtx))
    (scale : ℚ) (bt : BrickType) :
    ∀ m ∈ scaleModels ((v0 :: vs) :: ms) scale bt, ∀ v ∈ m, 0 ≤ v.2.2 := by
  intro m hm v hv
  rw [scaleModels] at hm
  exact minShift_nonneg _ _ m hm v hv

/-- C9 counterexample: `scale_models` does not make all coordinates
non-negative: a single vertex `(-1, 2, 5)` with scale `1` keeps its
negative first component. -/
theorem scale_models_negative_x_counterexample :
    ¬ (∀ m ∈ scaleModels [[((-1 : ℚ), 2, 5)]] 1 BrickType.Microbricks, ∀ v ∈ m,
        0 ≤ v.1 ∧ 0 ≤ v.2.1 ∧ 0 ≤ v.2.2) := by
  intro h
  have hcomp : scaleModels [[((-1 : ℚ), 2, 5)]] 1 BrickType.Microbricks =
      [[((-1 : ℚ), 2, 5)]] := by
    rw [scaleModels]
    norm_num [minZAll, minZRow]
  have hv := h [((-1 : ℚ), 2, 5)] (by rw [hcomp]; simp) ((-1 : ℚ), 2, 5) (by simp)
  norm_num at hv

theorem merger_terminates_witness :
    lossyPass ⟨1, [(⟨0, 0, 0⟩, ⟨5, 5, 5, 255⟩)]⟩ 100 =
      some (⟨0, 0, 0, 1, 1, 1, [⟨5, 5, 5, 255⟩]⟩, ⟨1, []⟩) ∧
    ((VoxelTree.mk 1 []).cells.length <
      (VoxelTree.mk 1 [(⟨0, 0, 0⟩, ⟨5, 5, 5, 255⟩)]).cells.length ∧
     LossyRegion.inBox ⟨0, 0, 0, 1, 1, 1, [⟨5, 5, 5, 255⟩]⟩ ⟨0, 0, 0⟩ ∧
     (∀ v, LossyRegion.inBox ⟨0, 0, 0, 1, 1, 1, [⟨5, 5, 5, 255⟩]⟩ v →
       getCell ⟨1, []⟩ v = TreeBody.Empty)) :=
  ⟨by decide,
    (merger_terminates 100 ⟨1, [(⟨0, 0, 0⟩, ⟨5, 5, 5, 255⟩)]⟩ (fun c => c)
      (fun c : RGBA => c.r) 3 (fun _ => 0) (fun _ => ⟨0, 0, 0, 0⟩) []
      ⟨BrickType.Default, 1, true, Material.Plastic, 5⟩ 500 4).1 _ _ (by decide)⟩

theorem lossy_merge_cap_witness :
    (1 ≤ maxScaleOf ⟨BrickType.Default, 1, false, Material.Plastic, 5⟩) ∧
    (maxScaleOf ⟨BrickType.Default, 1, false, Material.Plastic, 5⟩ ≤ 500) ∧
    (∀ r ∈ (lossyRun (Int.tdiv 500
        (maxScaleOf ⟨BrickType.Default, 1, false, Material.Plastic, 5⟩))
        ⟨1, [(⟨0, 0, 0⟩, ⟨1, 2, 3, 255⟩)]⟩).1,
      (r.xp - r.x ≤ Int.tdiv 500
        (maxScaleOf ⟨BrickType.Default, 1, false, Material.Plastic, 5⟩) ∧
       r.yp - r.y ≤ Int.tdiv 500
        (maxScaleOf ⟨BrickType.Default, 1, false, Material.Plastic, 5⟩) ∧
       r.zp - r.z ≤ Int.tdiv 500
        (maxScaleOf ⟨BrickType.Default, 1, false, Material.Plastic, 5⟩)) ∧
      ((⟨BrickType.Default, 1, false, Material.Plastic, 5⟩ : Obj2Brs).bricktype ≠
          BrickType.Microbricks →
        r.xp - r.x ≤ 100 ∧ r.yp - r.y ≤ 100 ∧ r.zp - r.z ≤ 250)) :=
  ⟨by decide, by decide,
    lossy_merge_cap ⟨BrickType.Default, 1, false, Material.Plastic, 5⟩
      ⟨1, [(⟨0, 0, 0⟩, ⟨1, 2, 3, 255⟩)]⟩ (by decide) (by decide)⟩

theorem lossless_merge_cap_witness :
    (1 ≤ maxScaleOf ⟨BrickType.Tiles, 1, true, Material.Glass, 5⟩) ∧
    (maxScaleOf ⟨BrickType.Tiles, 1, true, Material.Glass, 5⟩ ≤ 500) ∧
    (∀ r ∈ (losslessRun (fun c => c) (fun c : RGBA => c.g)
        ((2 : Int) ^ (VoxelTree.mk 1 [(⟨0, 0, 0⟩, ⟨1, 2, 3, 255⟩)]).size + 1)
        (Int.tdiv 500 (maxScaleOf ⟨BrickType.Tiles, 1, true, Material.Glass, 5⟩))
        ⟨1, [(⟨0, 0, 0⟩, ⟨1, 2, 3, 255⟩)]⟩).1,
      r.xp - r.x ≤ Int.tdiv 500 (maxScaleOf ⟨BrickType.Tiles, 1, true, Material.Glass, 5⟩) ∧
      r.yp - r.y ≤ Int.tdiv 500 (maxScaleOf ⟨BrickType.Tiles, 1, true, Material.Glass, 5⟩) ∧
      r.zp - r.z ≤ Int.tdiv 500 (maxScaleOf ⟨BrickType.Tiles, 1, true, Material.Glass, 5⟩)) :=
  ⟨by decide, by decide,
    lossless_merge_cap (fun c => c) (fun c : RGBA => c.g)
      ⟨BrickType.Tiles, 1, true, Material.Glass, 5⟩
      ⟨1, [(⟨0, 0, 0⟩, ⟨1, 2, 3, 255⟩)]⟩ (by decide) (by decide)⟩

theorem lossless_region_color_uniform_witness :
    ((⟨0, 0, 0, 1, 1, 1, 10, ⟨10, 20, 30, 255⟩⟩ : LosslessRegion) ∈
      (losslessRun (fun c => c) (fun c : RGBA => c.r) 3 1
        ⟨1, [(⟨0, 0, 0⟩, ⟨10, 20, 30, 255⟩)]⟩).1) ∧
    LosslessRegion.inBox ⟨0, 0, 0, 1, 1, 1, 10, ⟨10, 20, 30, 255⟩⟩ ⟨0, 0, 0⟩ ∧
    (∃ c, lookupColor (VoxelTree.mk 1 [(⟨0, 0, 0⟩, ⟨10, 20, 30, 255⟩)]).cells ⟨0, 0, 0⟩ =
        some c ∧ (fun c : RGBA => c.r) ((fun c => c) c) = 10) := by
  have hp0 : losslessPass (fun c => c) (fun c : RGBA => c.r)
      ⟨1, [(⟨0, 0, 0⟩, ⟨10, 20, 30, 255⟩)]⟩ 3 1 =
      some (⟨0, 0, 0, 1, 1, 1, 10, ⟨10, 20, 30, 255⟩⟩, [], ⟨1, []⟩) := by decide
  have hmem : (⟨0, 0, 0, 1, 1, 1, 10, ⟨10, 20, 30, 255⟩⟩ : LosslessRegion) ∈
      (losslessRun (fun c => c) (fun c : RGBA => c.r) 3 1
        ⟨1, [(⟨0, 0, 0⟩, ⟨10, 20, 30, 255⟩)]⟩).1 := by
    rw [losslessRun.eq_def, hp0]
    dsimp only
    exact List.mem_cons_self _ _
  exact ⟨hmem, by decide,
    (lossless_region_color_uniform (fun c => c) (fun c : RGBA => c.r) 3 1
      ⟨1, [(⟨0, 0, 0⟩, ⟨10, 20, 30, 255⟩)]⟩ _ hmem).1 ⟨0, 0, 0⟩ (by decide)⟩

theorem lossy_box_colors_collected_witness :
    ((⟨0, 0, 0, 1, 1, 2, [⟨10, 10, 10, 255⟩, ⟨10, 10, 10, 255⟩,
        ⟨200, 0, 0, 255⟩]⟩ : LossyRegion) ∈
      (lossyRun 100 ⟨2, [(⟨0, 0, 0⟩, ⟨10, 10, 10, 255⟩), (⟨0, 0, 1⟩, ⟨10, 10, 10, 255⟩),
        (⟨0, 1, 0⟩, ⟨200, 0, 0, 255⟩)]⟩).1) ∧
    LossyRegion.inBox ⟨0, 0, 0, 1, 1, 2, [⟨10, 10, 10, 255⟩, ⟨10, 10, 10, 255⟩,
      ⟨200, 0, 0, 255⟩]⟩ ⟨0, 0, 1⟩ ∧
    (∃ c, lookupColor (VoxelTree.mk 2 [(⟨0, 0, 0⟩, ⟨10, 10, 10, 255⟩),
        (⟨0, 0, 1⟩, ⟨10, 10, 10, 255⟩), (⟨0, 1, 0⟩, ⟨200, 0, 0, 255⟩)]).cells ⟨0, 0, 1⟩ =
        some c ∧
      c ∈ [(⟨10, 10, 10, 255⟩ : RGBA), ⟨10, 10, 10, 255⟩, ⟨200, 0, 0, 255⟩]) := by
  have hp0 : lossyPass ⟨2, [(⟨0, 0, 0⟩, ⟨10, 10, 10, 255⟩), (⟨0, 0, 1⟩, ⟨10, 10, 10, 255⟩),
      (⟨0, 1, 0⟩, ⟨200, 0, 0, 255⟩)]⟩ 100 =
      some (⟨0, 0, 0, 1, 1, 2, [⟨10, 10, 10, 255⟩, ⟨10, 10, 10, 255⟩, ⟨200, 0, 0, 255⟩]⟩,
        ⟨2, [(⟨0, 1, 0⟩, ⟨200, 0, 0, 255⟩)]⟩) := by decide
  have hmem : (⟨0, 0, 0, 1, 1, 2, [⟨10, 10, 10, 255⟩, ⟨10, 10, 10, 255⟩,
      ⟨200, 0, 0, 255⟩]⟩ : LossyRegion) ∈
      (lossyRun 100 ⟨2, [(⟨0, 0, 0⟩, ⟨10, 10, 10, 255⟩), (⟨0, 0, 1⟩, ⟨10, 10, 10, 255⟩),
        (⟨0, 1, 0⟩, ⟨200, 0, 0, 255⟩)]⟩).1 := by
    rw [lossyRun, hp0]
    exact List.mem_cons_self _ _
  exact ⟨hmem, by decide,
    lossy_box_colors_collected 100 ⟨2, [(⟨0, 0, 0⟩, ⟨10, 10, 10, 255⟩),
      (⟨0, 0, 1⟩, ⟨10, 10, 10, 255⟩), (⟨0, 1, 0⟩, ⟨200, 0, 0, 255⟩)]⟩ _ hmem ⟨0, 0, 1⟩
      (by decide)⟩

theorem lossless_probe_bound_witness :
    (∀ p ∈ (VoxelTree.mk 0 [(⟨0, 0, 0⟩, ⟨10, 20, 30, 255⟩)]).cells,
      0 ≤ p.1.x ∧ p.1.x < (2 : Int) ^ (VoxelTree.mk 0
        [(⟨0, 0, 0⟩, ⟨10, 20, 30, 255⟩)]).size ∧
      0 ≤ p.1.y ∧ p.1.y < (2 : Int) ^ (VoxelTree.mk 0
        [(⟨0, 0, 0⟩, ⟨10, 20, 30, 255⟩)]).size ∧
      0 ≤ p.1.z ∧ p.1.z < (2 : Int) ^ (VoxelTree.mk 0
        [(⟨0, 0, 0⟩, ⟨10, 20, 30, 255⟩)]).size) ∧
    (∀ p ∈ (losslessRun (fun c => c) (fun c : RGBA => c.b)
        ((2 : Int) ^ (VoxelTree.mk 0 [(⟨0, 0, 0⟩, ⟨10, 20, 30, 255⟩)]).size + 1) 100
        ⟨0, [(⟨0, 0, 0⟩, ⟨10, 20, 30, 255⟩)]⟩).2.1,
      p.x ≤ (2 : Int) ^ (VoxelTree.mk 0 [(⟨0, 0, 0⟩, ⟨10, 20, 30, 255⟩)]).size ∧
      p.y ≤ (2 : Int) ^ (VoxelTree.mk 0 [(⟨0, 0, 0⟩, ⟨10, 20, 30, 255⟩)]).size ∧
      p.z ≤ (2 : Int) ^ (VoxelTree.mk 0 [(⟨0, 0, 0⟩, ⟨10, 20, 30, 255⟩)]).size) :=
  ⟨by decide,
    lossless_probe_bound (fun c => c) (fun c : RGBA => c.b) 100
      ⟨0, [(⟨0, 0, 0⟩, ⟨10, 20, 30, 255⟩)]⟩ (by decide)⟩

theorem create_brick_size_position_witness :
    (0 ≤ (5 : Int) * 3 ∧ (5 : Int) * 3 < 65536 ∧ 0 ≤ (5 : Int) * 4 ∧ (5 : Int) * 4 < 65536 ∧
      0 ≤ (2 : Int) * 2 ∧ (2 : Int) * 2 < 65536) ∧
    (-2147483648 ≤ (5 : Int) * 3 + 2 * 5 * 1 ∧ (5 : Int) * 3 + 2 * 5 * 1 < 2147483648 ∧
      -2147483648 ≤ (5 : Int) * 4 + 2 * 5 * 2 ∧ (5 : Int) * 4 + 2 * 5 * 2 < 2147483648 ∧
      -2147483648 ≤ (2 : Int) * 2 + 2 * 2 * 3 ∧ (2 : Int) * 2 + 2 * 2 * 3 < 2147483648) ∧
    ((((createBrick ⟨BrickType.Default, 1, false, Material.Glow, 7⟩ [] (5, 5, 2) (3, 4, 2)
        (1, 2, 3) (BrickColor.Unique ⟨9, 9, 9⟩)).size.x : Int) = (5 : Int) * 3 ∧
      ((createBrick ⟨BrickType.Default, 1, false, Material.Glow, 7⟩ [] (5, 5, 2) (3, 4, 2)
        (1, 2, 3) (BrickColor.Unique ⟨9, 9, 9⟩)).size.y : Int) = (5 : Int) * 4 ∧
      ((createBrick ⟨BrickType.Default, 1, false, Material.Glow, 7⟩ [] (5, 5, 2) (3, 4, 2)
        (1, 2, 3) (BrickColor.Unique ⟨9, 9, 9⟩)).size.z : Int) = (2 : Int) * 2) ∧
     ((createBrick ⟨BrickType.Default, 1, false, Material.Glow, 7⟩ [] (5, 5, 2) (3, 4, 2)
        (1, 2, 3) (BrickColor.Unique ⟨9, 9, 9⟩)).position.x = (5 : Int) * 3 + 2 * 5 * 1 ∧
      (createBrick ⟨BrickType.Default, 1, false, Material.Glow, 7⟩ [] (5, 5, 2) (3, 4, 2)
        (1, 2, 3) (BrickColor.Unique ⟨9, 9, 9⟩)).position.y = (5 : Int) * 4 + 2 * 5 * 2 ∧
      (createBrick ⟨BrickType.Default, 1, false, Material.Glow, 7⟩ [] (5, 5, 2) (3, 4, 2)
        (1, 2, 3) (BrickColor.Unique ⟨9, 9, 9⟩)).position.z = (2 : Int) * 2 + 2 * 2 * 3)) :=
  ⟨by decide, by decide,
    create_brick_size_position ⟨BrickType.Default, 1, false, Material.Glow, 7⟩ [] (5, 5, 2)
      (3, 4, 2) (1, 2, 3) (BrickColor.Unique ⟨9, 9, 9⟩) (by decide) (by decide)⟩

theorem scale_models_z_nonneg_witness :
    ([((1 : ℚ), 2, 0)] ∈ scaleModels [[((1 : ℚ), 2, -3)]] 1 BrickType.Microbricks) ∧
    (((1 : ℚ), 2, 0) ∈ [((1 : ℚ), 2, 0)]) ∧ (0 ≤ (((1 : ℚ), 2, 0) : Vtx).2.2) := by
  have hcomp : scaleModels [[((1 : ℚ), 2, -3)]] 1 BrickType.Microbricks =
      [[((1 : ℚ), 2, 0)]] := by
    rw [scaleModels]
    norm_num [minZAll, minZRow]
  refine ⟨by rw [hcomp]; simp, by simp, ?_⟩
  exact scale_models_z_nonneg (1, 2, -3) [] [] 1 BrickType.Microbricks [((1 : ℚ), 2, 0)]
    (by rw [hcomp]; simp) ((1 : ℚ), 2, 0) (by simp)

end Obj2Brs
